import Mathlib

/-!
Shallow embedding of the SCORM 2004 sequencing engine of
`src/lib/scorm-sequencing-correct.ts` (class `SCORMSequencingEngine`).

Modelling conventions:
* Activities are addressed by their index path from the root
  (`List Nat`); the source's `parent` pointer becomes `List.dropLast`,
  a child reference becomes `path ++ [i]`.
* The activity tree is a rose tree whose nodes carry the immutable
  definition data (`ActivityDef`, from the manifest item) and the
  mutable `ActivityStateInformation`.
* JavaScript `undefined`-able fields become `Option`; JS truthiness of
  strings is modelled where it matters (empty string is falsy).
* `flowSubprocess` of the source is not terminating on all inputs
  (its `getNextChild` is computed from the session's current activity,
  independent of the node being visited, so the recursion can revisit
  the same node forever).  It is therefore given explicit fuel; fuel
  exhaustion (`none`) corresponds to the source blowing the stack.
* The fields `sequencingSession : Map<string, any>` and
  `globalObjectives` of `SequencingSession` are never read or written
  by any engine method, and `Activity.depth` / `Activity.isRoot` are
  written but never read; they are omitted.
* `new Date()` in `isOutsideAvailableTimeRange` is modelled by a fixed
  `now : Int` carried in the engine state; time-limit strings of
  `beginTimeLimit` / `endTimeLimit` are modelled as already-parsed
  instants (`Option Int`).
-/

/-- `ObjectiveState` of the source. -/
structure ObjectiveState where
  objectiveProgressStatus : Bool
  objectiveSatisfiedStatus : Bool
  objectiveMeasureStatus : Bool
  objectiveNormalizedMeasure : Int
deriving DecidableEq, Repr

/-- `ActivityStateInformation` of the source (durations kept as `Int`,
`objectives : Map` as an association list in insertion order). -/
structure ActivityStateInformation where
  activityIsActive : Bool
  activityIsSuspended : Bool
  activityProgressStatus : Bool
  activityCompletionStatus : Bool
  activityAbsoluteDuration : Int
  activityExperiencedDuration : Int
  attemptProgressStatus : Bool
  attemptCompletionStatus : Bool
  attemptAbsoluteDuration : Int
  attemptExperiencedDuration : Int
  attemptCompletionAmount : Int
  objectives : List (String × ObjectiveState)
deriving DecidableEq, Repr

/-- `initializeActivityState` of the source. -/
def initializeActivityState : ActivityStateInformation where
  activityIsActive := false
  activityIsSuspended := false
  activityProgressStatus := false
  activityCompletionStatus := false
  activityAbsoluteDuration := 0
  activityExperiencedDuration := 0
  attemptProgressStatus := false
  attemptCompletionStatus := false
  attemptAbsoluteDuration := 0
  attemptExperiencedDuration := 0
  attemptCompletionAmount := 0
  objectives := []

/-- `SCORMRuleCondition` of `types/scorm.ts`. -/
structure SCORMRuleCondition where
  condition : String
  operator : Option String
  measureThreshold : Option Int
  referenceObjective : Option String
deriving DecidableEq, Repr

/-- `SCORMRule` of `types/scorm.ts`. -/
structure SCORMRule where
  conditionCombination : String
  action : String
  ruleConditions : List SCORMRuleCondition
deriving DecidableEq, Repr

/-- `SCORMControlMode` of `types/scorm.ts` (fields the engine reads). -/
structure SCORMControlMode where
  choice : Option Bool
  flow : Option Bool
  forwardOnly : Option Bool
deriving DecidableEq, Repr

/-- `SCORMSequencingRules` of `types/scorm.ts`. -/
structure SCORMSequencingRules where
  preConditionRule : Option (List SCORMRule)
  exitConditionRule : Option (List SCORMRule)
  postConditionRule : Option (List SCORMRule)
deriving DecidableEq, Repr

/-- `SCORMRollupRule` of `types/scorm.ts` (fields the engine reads). -/
structure SCORMRollupRule where
  action : String
  conditionCombination : String
  conditions : List SCORMRuleCondition
deriving DecidableEq, Repr

/-- `SCORMLimitConditions` of `types/scorm.ts` (fields the engine
reads); the time-limit instants are modelled pre-parsed. -/
structure SCORMLimitConditions where
  attemptLimit : Option Nat
  activityAbsoluteDurationLimit : Option String
  beginTimeLimit : Option Int
  endTimeLimit : Option Int
deriving DecidableEq, Repr

/-- `SCORMSequencing` of `types/scorm.ts` (fields the engine reads).
`rollupRules` keeps the nested `Option` of `rollupRules?.rollupRule`. -/
structure SCORMSequencing where
  controlMode : Option SCORMControlMode
  sequencingRules : Option SCORMSequencingRules
  limitConditions : Option SCORMLimitConditions
  rollupRule : Option (List SCORMRollupRule)
deriving DecidableEq, Repr

/-- The immutable part of an `Activity` node: identity and the fields
of its manifest item that the engine reads, plus the `isLeaf` flag
computed by `createActivity` / `buildActivityTree`. -/
structure ActivityDef where
  identifier : String
  identifierref : Option String
  isvisible : Option Bool
  isLeaf : Bool
  sequencingDefinition : Option SCORMSequencing
deriving DecidableEq, Repr

/-- The activity tree: definition, mutable state, ordered children. -/
inductive ATree where
  | node (d : ActivityDef) (s : ActivityStateInformation) (children : List ATree)

/-- Definition data of a node. -/
def ATree.def : ATree → ActivityDef
  | .node d _ _ => d

/-- Mutable state of a node. -/
def ATree.state : ATree → ActivityStateInformation
  | .node _ s _ => s

/-- Children of a node. -/
def ATree.children : ATree → List ATree
  | .node _ _ cs => cs

/-- Subtree at an index path (the runtime `Activity` reference). -/
def ATree.get? : ATree → List Nat → Option ATree
  | t, [] => some t
  | .node _ _ cs, i :: rest => cs[i]?.bind fun c => c.get? rest

/-- Update the state of the node at a path (no-op off the tree);
this is the shape every mutation of an `Activity`'s
`activityStateInformation` in the source takes. -/
def ATree.updAt (f : ActivityStateInformation → ActivityStateInformation) :
    ATree → List Nat → ATree
  | .node d s cs, [] => .node d (f s) cs
  | .node d s cs, i :: rest =>
    match cs[i]? with
    | none => .node d s cs
    | some c => .node d s (cs.set i (c.updAt f rest))

mutual
/-- `resetActivityStateRecursive` of the source. -/
def resetTree : ATree → ATree
  | .node d _ cs => .node d initializeActivityState (resetForest cs)

/-- `resetActivityStateRecursive` mapped over a child list. -/
def resetForest : List ATree → List ATree
  | [] => []
  | c :: cs => resetTree c :: resetForest cs
end

mutual
/-- `findActivityInTree` of the source, returning the index path of the
first (pre-order) node carrying the identifier. -/
def findPath (id : String) : ATree → Option (List Nat)
  | .node d _ cs => if d.identifier = id then some [] else findPathForest id 0 cs

/-- `findActivityInTree` iterated over children, left to right. -/
def findPathForest (id : String) : Nat → List ATree → Option (List Nat)
  | _, [] => none
  | i, c :: cs =>
    match findPath id c with
    | some p => some (i :: p)
    | none => findPathForest id (i + 1) cs
end

mutual
/-- `findSuspendedActivity` of the source, as an index path. -/
def findSuspendedPath : ATree → Option (List Nat)
  | .node _ s cs =>
    if s.activityIsSuspended then some [] else findSuspendedForest 0 cs

/-- `findSuspendedActivity` iterated over children. -/
def findSuspendedForest : Nat → List ATree → Option (List Nat)
  | _, [] => none
  | i, c :: cs =>
    match findSuspendedPath c with
    | some p => some (i :: p)
    | none => findSuspendedForest (i + 1) cs
end

/-- Engine state: `session.activityTree`, `session.currentActivity`,
the private `endSession` flag, and the modelled clock. -/
structure Engine where
  tree : ATree
  currentActivity : Option (List Nat)
  endSession : Bool
  now : Int

/-- State of the node the path points at, if the path is on the tree. -/
def Engine.stAt (e : Engine) (p : List Nat) : Option ActivityStateInformation :=
  (e.tree.get? p).map ATree.state

/-- Update the state of one activity. -/
def Engine.upd (e : Engine) (p : List Nat)
    (f : ActivityStateInformation → ActivityStateInformation) : Engine :=
  { e with tree := e.tree.updAt f p }

/-! ## Objective helpers -/

/-- The key defaulting of `getObjective` / `getOrCreateObjective`:
`objectiveId || "_primary_"` (JS: `undefined` and `""` are falsy). -/
def objKey : Option String → String
  | none => "_primary_"
  | some s => if s = "" then "_primary_" else s

/-- `getObjective` of the source. -/
def getObjective (s : ActivityStateInformation) (objectiveId : Option String) :
    Option ObjectiveState :=
  s.objectives.lookup (objKey objectiveId)

/-- `getObjectiveSatisfiedStatus` of the source
(`objective?.objectiveSatisfiedStatus || false`). -/
def getObjectiveSatisfiedStatus (s : ActivityStateInformation)
    (objectiveId : Option String) : Bool :=
  ((getObjective s objectiveId).map ObjectiveState.objectiveSatisfiedStatus).getD false

/-- `getObjectiveProgressStatus` of the source. -/
def getObjectiveProgressStatus (s : ActivityStateInformation)
    (objectiveId : Option String) : Bool :=
  ((getObjective s objectiveId).map ObjectiveState.objectiveProgressStatus).getD false

/-- `getObjectiveMeasure` of the source: the measure when
`objectiveMeasureStatus` is set, `undefined` otherwise. -/
def getObjectiveMeasure (s : ActivityStateInformation)
    (objectiveId : Option String) : Option Int :=
  match getObjective s objectiveId with
  | none => none
  | some o => if o.objectiveMeasureStatus then some o.objectiveNormalizedMeasure else none

/-- Update the first binding of a key in an association list. -/
def updFirst (key : String) (f : ObjectiveState → ObjectiveState) :
    List (String × ObjectiveState) → List (String × ObjectiveState)
  | [] => []
  | kv :: rest =>
    if kv.1 = key then (kv.1, f kv.2) :: rest else kv :: updFirst key f rest

/-- The field mutation of `setObjectiveSatisfiedStatus`:
`objectiveProgressStatus = true`, the satisfied flag as given. -/
def setSatFields (satisfied : Bool) (o : ObjectiveState) : ObjectiveState :=
  { o with objectiveProgressStatus := true, objectiveSatisfiedStatus := satisfied }

/-- `setObjectiveSatisfiedStatus` of the source: `getOrCreateObjective`
(create a default entry when missing) then set
`objectiveProgressStatus := true` and the satisfied flag. -/
def setObjectiveSatisfiedStatusS (satisfied : Bool) (objectiveId : Option String)
    (s : ActivityStateInformation) : ActivityStateInformation :=
  match s.objectives.lookup (objKey objectiveId) with
  | some _ =>
    { s with objectives := updFirst (objKey objectiveId) (setSatFields satisfied) s.objectives }
  | none =>
    { s with objectives :=
        s.objectives ++ [(objKey objectiveId, setSatFields satisfied ⟨false, false, false, 0⟩)] }

/-! ## Limit checks and single conditions -/

/-- `getAttemptCount` of the source ("Simplified for now"). -/
def getAttemptCount : Nat := 0

/-- `parseTimeLimit` of the source ("Simplified implementation"). -/
def parseTimeLimit (_timeLimit : String) : Int := 0

/-- `isAttemptLimitExceeded` of the source; `!attemptLimit` is JS-falsy
for both `undefined` and `0`. -/
def isAttemptLimitExceeded (sd : Option SCORMSequencing) : Bool :=
  match sd.bind SCORMSequencing.limitConditions |>.bind SCORMLimitConditions.attemptLimit with
  | none => false
  | some limit => if limit = 0 then false else decide (getAttemptCount ≥ limit)

/-- `isTimeLimitExceeded` of the source (`""` is falsy). -/
def isTimeLimitExceeded (sd : Option SCORMSequencing)
    (s : ActivityStateInformation) : Bool :=
  match sd.bind SCORMSequencing.limitConditions
      |>.bind SCORMLimitConditions.activityAbsoluteDurationLimit with
  | none => false
  | some tl =>
    if tl = "" then false
    else decide (s.activityAbsoluteDuration ≥ parseTimeLimit tl)

/-- `isOutsideAvailableTimeRange` of the source, against the modelled
clock. -/
def isOutsideAvailableTimeRange (sd : Option SCORMSequencing) (now : Int) : Bool :=
  let lc := sd.bind SCORMSequencing.limitConditions
  let beginT := lc.bind SCORMLimitConditions.beginTimeLimit
  let endT := lc.bind SCORMLimitConditions.endTimeLimit
  match beginT, endT with
  | none, none => false
  | _, _ =>
    (match beginT with | some b => decide (now < b) | none => false) ||
    (match endT with | some t => decide (now > t) | none => false)

/-- `evaluateRuleCondition` of the source, reading one activity's
definition and state. -/
def evaluateRuleCondition (c : SCORMRuleCondition) (d : ActivityDef)
    (s : ActivityStateInformation) (now : Int) : Bool :=
  let base : Bool :=
    match c.condition with
    | "satisfied" => getObjectiveSatisfiedStatus s c.referenceObjective
    | "objectiveStatusKnown" => getObjectiveProgressStatus s c.referenceObjective
    | "objectiveSatisfied" => getObjectiveSatisfiedStatus s c.referenceObjective
    | "objectiveMeasureKnown" => (getObjectiveMeasure s c.referenceObjective).isSome
    | "objectiveMeasureGreaterThan" =>
      match getObjectiveMeasure s c.referenceObjective, c.measureThreshold with
      | some m, some th => decide (m > th)
      | _, _ => false
    | "objectiveMeasureLessThan" =>
      match getObjectiveMeasure s c.referenceObjective, c.measureThreshold with
      | some m, some th => decide (m < th)
      | _, _ => false
    | "completed" => s.activityProgressStatus && s.activityCompletionStatus
    | "activityProgressKnown" => s.activityProgressStatus
    | "attempted" => s.attemptProgressStatus
    | "attemptLimitExceeded" => isAttemptLimitExceeded d.sequencingDefinition
    | "timeLimitExceeded" => isTimeLimitExceeded d.sequencingDefinition s
    | "outsideAvailableTimeRange" => isOutsideAvailableTimeRange d.sequencingDefinition now
    | _ => false
  if c.operator = some "not" then !base else base

/-- `evaluateSequencingRule` of the source: evaluate every condition,
then combine with `all` (AND) or anything else (OR). -/
def evaluateSequencingRule (rule : SCORMRule) (d : ActivityDef)
    (s : ActivityStateInformation) (now : Int) : Bool :=
  let results := rule.ruleConditions.map fun c => evaluateRuleCondition c d s now
  if rule.conditionCombination = "all" then results.all id else results.any id

/-! ## Control-mode checks -/

/-- `isChoiceValid` of the source: `controlMode?.choice !== false`. -/
def isChoiceValidSD (sd : Option SCORMSequencing) : Bool :=
  !((sd.bind SCORMSequencing.controlMode |>.bind SCORMControlMode.choice) == some false)

/-- `isContinueAllowed` of the source: `controlMode?.flow !== false`. -/
def isContinueAllowed (sd : Option SCORMSequencing) : Bool :=
  !((sd.bind SCORMSequencing.controlMode |>.bind SCORMControlMode.flow) == some false)

/-- `isPreviousAllowed` of the source: `!controlMode?.forwardOnly`. -/
def isPreviousAllowed (sd : Option SCORMSequencing) : Bool :=
  !((sd.bind SCORMSequencing.controlMode |>.bind SCORMControlMode.forwardOnly) == some true)

/-! ## Deliverability -/

/-- `checkPreConditions` of the source: deliverable unless some
precondition rule evaluates to `false` (the rule's action is ignored
here). -/
def checkPreConditions (n : ATree) (now : Int) : Bool :=
  match n.def.sequencingDefinition.bind SCORMSequencing.sequencingRules
      |>.bind SCORMSequencingRules.preConditionRule with
  | none => true
  | some rules => rules.all fun r => evaluateSequencingRule r n.def n.state now

/-- `isActivityDeliverable` of the source: leaf flag, truthy
`identifierref` (JS: empty string is falsy), `isvisible !== false`,
preconditions. -/
def isActivityDeliverableN (n : ATree) (now : Int) : Bool :=
  n.def.isLeaf &&
    (match n.def.identifierref with
     | none => false
     | some r => !(r = "")) &&
    !(n.def.isvisible == some false) &&
    checkPreConditions n now

/-- `isActivityDeliverable` at a path. -/
def isActivityDeliverable (e : Engine) (p : List Nat) : Bool :=
  match e.tree.get? p with
  | none => false
  | some n => isActivityDeliverableN n e.now

/-! ## Rule actions, rules-check, rollup -/

/-- `executeRuleAction` of the source.  `disabled`, `hiddenFromChoice`,
`stopForwardTraversal` and `exitParent` have empty bodies there;
unknown actions are logged no-ops. -/
def executeRuleAction (action : String) (p : List Nat) (e : Engine) : Engine :=
  match action with
  | "skip" =>
    e.upd p fun s =>
      { s with activityProgressStatus := true, activityCompletionStatus := true }
  | "exitAll" => { e with endSession := true }
  | "retry" => e.upd p fun _ => initializeActivityState
  | "retryAll" => { e with tree := resetTree e.tree }
  | _ => e

/-- The two rule events of `sequencingRulesCheckProcess`. -/
inductive RuleEvent where
  | entry
  | exit
deriving DecidableEq, Repr

/-- `sequencingRulesCheckProcess` of the source: collect the event's
rules, then evaluate and execute them in order against the live state. -/
def sequencingRulesCheckProcess (p : List Nat) (event : RuleEvent) (e : Engine) :
    Engine :=
  match e.tree.get? p with
  | none => e
  | some n =>
    match n.def.sequencingDefinition.bind SCORMSequencing.sequencingRules with
    | none => e
    | some sr =>
      let rulesToCheck : List SCORMRule :=
        match event with
        | .entry => sr.preConditionRule.getD []
        | .exit => sr.exitConditionRule.getD [] ++ sr.postConditionRule.getD []
      rulesToCheck.foldl
        (fun acc rule =>
          match acc.tree.get? p with
          | none => acc
          | some cur =>
            if evaluateSequencingRule rule cur.def cur.state acc.now then
              executeRuleAction rule.action p acc
            else acc)
        e

/-- `executeRollupAction` of the source. -/
def executeRollupAction (action : String) (p : List Nat) (e : Engine) : Engine :=
  match action with
  | "satisfied" => e.upd p (setObjectiveSatisfiedStatusS true none)
  | "notSatisfied" => e.upd p (setObjectiveSatisfiedStatusS false none)
  | "completed" =>
    e.upd p fun s =>
      { s with activityProgressStatus := true, activityCompletionStatus := true }
  | "incomplete" =>
    e.upd p fun s =>
      { s with activityProgressStatus := true, activityCompletionStatus := false }
  | _ => e

/-- `applyRollupRule` of the source: evaluate each condition against
each child (child-major order), combine, and execute the action on the
parent. -/
def applyRollupRule (rule : SCORMRollupRule) (p : List Nat) (e : Engine) : Engine :=
  match e.tree.get? p with
  | none => e
  | some n =>
    let childResults : List Bool :=
      n.children.flatMap fun child =>
        rule.conditions.map fun c =>
          evaluateRuleCondition c child.def child.state e.now
    let ruleResult :=
      if rule.conditionCombination = "all" then childResults.all id
      else childResults.any id
    if ruleResult then executeRollupAction rule.action p e else e

/-- `applyDefaultRollup` of the source: set the parent complete when
every child is known+complete, set the parent's primary objective
satisfied when every child's is; never clears either status. -/
def applyDefaultRollup (p : List Nat) (e : Engine) : Engine :=
  match e.tree.get? p with
  | none => e
  | some n =>
    let allChildrenComplete := n.children.all fun child =>
      child.state.activityProgressStatus && child.state.activityCompletionStatus
    let e1 :=
      if allChildrenComplete then
        e.upd p fun s =>
          { s with activityProgressStatus := true, activityCompletionStatus := true }
      else e
    let allChildrenSatisfied := n.children.all fun child =>
      getObjectiveSatisfiedStatus child.state none
    if allChildrenSatisfied then e1.upd p (setObjectiveSatisfiedStatusS true none)
    else e1

/-- `rollupActivityState` of the source: leaves (by flag) are skipped;
explicit rollup rules, if the `rollupRule` array is present, else the
default rollup. -/
def rollupActivityState (p : List Nat) (e : Engine) : Engine :=
  match e.tree.get? p with
  | none => e
  | some n =>
    if n.def.isLeaf then e
    else
      match n.def.sequencingDefinition.bind SCORMSequencing.rollupRule with
      | some rules => rules.foldl (fun acc rule => applyRollupRule rule p acc) e
      | none => applyDefaultRollup p e

/-- The `while` loop of `rollupProcess`, counted down by tree depth:
the activity itself, then each parent up to and including the root. -/
def ancestorChainAux : Nat → List Nat → List (List Nat)
  | 0, p => [p]
  | k + 1, p => p :: ancestorChainAux k p.dropLast

/-- The ancestor chain walked by `rollupProcess` (`p.length` steps of
`parent` reach the root). -/
def ancestorChain (p : List Nat) : List (List Nat) :=
  ancestorChainAux p.length p

/-- `rollupProcess` of the source: rollup from the activity up to the
root. -/
def rollupProcess (p : List Nat) (e : Engine) : Engine :=
  (ancestorChain p).foldl (fun acc q => rollupActivityState q acc) e

/-- `terminationRequestProcess` of the source: clear the current
activity's active flag, run its exit/post rules, then rollup. -/
def terminationRequestProcess (e : Engine) : Engine :=
  match e.currentActivity with
  | none => e
  | some p =>
    let e1 := e.upd p fun s => { s with activityIsActive := false }
    let e2 := sequencingRulesCheckProcess p .exit e1
    rollupProcess p e2

/-! ## Flow subprocess -/

/-- `getNextChild` of the source.  Its `activity` argument is unused
there: the sibling is computed from `session.currentActivity` via its
parent's child list, matching by identifier. -/
def getNextChild (e : Engine) (_activity : List Nat) : Option (List Nat) :=
  match e.currentActivity with
  | none => none
  | some cp =>
    if cp = [] then none
    else
      let parentPath := cp.dropLast
      match e.tree.get? parentPath, e.tree.get? cp with
      | some parent, some cur =>
        let siblings := parent.children
        match siblings.findIdx? fun c => c.def.identifier = cur.def.identifier with
        | none => none
        | some i => if i + 1 = siblings.length then none else some (parentPath ++ [i + 1])
      | _, _ => none

/-- `getPreviousChild` of the source (same unused-argument quirk). -/
def getPreviousChild (e : Engine) (_activity : List Nat) : Option (List Nat) :=
  match e.currentActivity with
  | none => none
  | some cp =>
    if cp = [] then none
    else
      let parentPath := cp.dropLast
      match e.tree.get? parentPath, e.tree.get? cp with
      | some parent, some cur =>
        let siblings := parent.children
        match siblings.findIdx? fun c => c.def.identifier = cur.def.identifier with
        | none => none
        | some i => if i = 0 then none else some (parentPath ++ [i - 1])
      | _, _ => none

/-- `getFirstChild` of the source, as a path. -/
def getFirstChild (e : Engine) (p : List Nat) : Option (List Nat) :=
  match e.tree.get? p with
  | none => none
  | some n => if n.children.length = 0 then none else some (p ++ [0])

/-- `flowSubprocess` of the source, with fuel (`none` = the source's
unbounded recursion / stack overflow; `some r` = the source returns
`r`).  The engine is read-only here. -/
def flowSubprocess (e : Engine) :
    Nat → List Nat → Bool → Bool → Option (Option (List Nat))
  | 0, _, _, _ => none
  | fuel + 1, p, entry, reverse =>
    match e.tree.get? p with
    | none => some none
    | some n =>
      if n.def.isLeaf && entry && isActivityDeliverableN n e.now then
        some (some p)
      else
        let viaChild : Option (List Nat) :=
          if !n.def.isLeaf then
            if entry then getFirstChild e p
            else if reverse then getPreviousChild e p else getNextChild e p
          else none
        match viaChild with
        | some c => flowSubprocess e fuel c true reverse
        | none =>
          match p with
          | [] => some none
          | _ :: _ => flowSubprocess e fuel p.dropLast false reverse

/-! ## Navigation, sequencing requests, delivery, overall process -/

/-- `isChoiceValid` at a path (only ever called on found activities). -/
def isChoiceValid (e : Engine) (p : List Nat) : Bool :=
  match e.tree.get? p with
  | none => true
  | some n => isChoiceValidSD n.def.sequencingDefinition

/-- The `validRequests` list of `navigationRequestProcess`. -/
def validRequests : List String :=
  ["start", "resumeAll", "continue", "previous", "choice", "exit", "exitAll",
   "abandon", "abandonAll"]

/-- The `case "choice"` validation of `navigationRequestProcess`:
a missing or empty target id, an unresolvable target, or a target
whose control mode forbids choice each yields its exception. -/
def choiceNavCheck (e : Engine) (targetId : Option String) : Option String :=
  match targetId with
  | none => some "Choice requires target activity"
  | some t =>
    if t = "" then some "Choice requires target activity"
    else
      match findPath t e.tree with
      | none => some "Target activity not found"
      | some tp =>
        if !isChoiceValid e tp then some "Choice not valid for target activity"
        else none

/-- `navigationRequestProcess` of the source: `none` means the request
is valid, `some exc` carries the exception label. -/
def navigationRequestProcess (e : Engine) (request : String)
    (targetId : Option String) : Option String :=
  if !(validRequests.contains request) then some "Invalid navigation request"
  else if e.endSession then some "Sequencing session has ended"
  else
    match request with
    | "start" =>
      if e.currentActivity.isSome then some "Sequencing session already active" else none
    | "resumeAll" =>
      if e.currentActivity.isSome then some "Sequencing session already active" else none
    | "continue" => if e.currentActivity.isNone then some "No current activity" else none
    | "previous" => if e.currentActivity.isNone then some "No current activity" else none
    | "exit" => if e.currentActivity.isNone then some "No current activity" else none
    | "abandon" => if e.currentActivity.isNone then some "No current activity" else none
    | "choice" => choiceNavCheck e targetId
    | _ => none

/-- `startSequencingRequestProcess` of the source: check choice on the
root, then flow into the tree. -/
def startSequencingRequestProcess (fuel : Nat) (e : Engine) :
    Option (Option (List Nat)) :=
  if !isChoiceValid e [] then some none
  else flowSubprocess e fuel [] true false

/-- `resumeAllSequencingRequestProcess` of the source. -/
def resumeAllSequencingRequestProcess (fuel : Nat) (e : Engine) :
    Option (Option (List Nat)) :=
  match findSuspendedPath e.tree with
  | some p => some (some p)
  | none => startSequencingRequestProcess fuel e

/-- `continueSequencingRequestProcess` of the source. -/
def continueSequencingRequestProcess (fuel : Nat) (e : Engine) :
    Option (Option (List Nat)) :=
  match e.currentActivity with
  | none => some none
  | some cp =>
    match e.tree.get? cp with
    | none => some none
    | some n =>
      if !isContinueAllowed n.def.sequencingDefinition then some none
      else flowSubprocess e fuel cp false false

/-- `previousSequencingRequestProcess` of the source. -/
def previousSequencingRequestProcess (fuel : Nat) (e : Engine) :
    Option (Option (List Nat)) :=
  match e.currentActivity with
  | none => some none
  | some cp =>
    match e.tree.get? cp with
    | none => some none
    | some n =>
      if !isPreviousAllowed n.def.sequencingDefinition then some none
      else flowSubprocess e fuel cp false true

/-- `choiceSequencingRequestProcess` of the source. -/
def choiceSequencingRequestProcess (fuel : Nat) (e : Engine) (targetId : String) :
    Option (Option (List Nat)) :=
  match findPath targetId e.tree with
  | none => some none
  | some tp =>
    if !isChoiceValid e tp then some none
    else flowSubprocess e fuel tp true false

/-- `exitSequencingRequestProcess` of the source; it is the only
request handler that mutates state (setting `endSession` when the
current activity has no parent). -/
def exitSequencingRequestProcess (fuel : Nat) (e : Engine) :
    Option (Engine × Option (List Nat)) :=
  match e.currentActivity with
  | none => some (e, none)
  | some cp =>
    match cp with
    | [] => some ({ e with endSession := true }, none)
    | _ :: _ => (flowSubprocess e fuel cp.dropLast false false).map fun r => (e, r)

/-- Outcome of `sequencingRequestProcess`. -/
inductive SeqOutcome where
  | identified (p : List Nat)
  | validNothing
  | invalid
deriving DecidableEq, Repr

/-- The per-request dispatch of `sequencingRequestProcess` (its
`switch` statement, minus the early-returning `exitAll`/`abandonAll`
cases): the possibly-identified activity, paired with the engine state
the handler left behind (only `exit` can change it). -/
def identifiedActivityFor (fuel : Nat) (e : Engine) (request : String)
    (targetId : Option String) : Option (Engine × Option (List Nat)) :=
  match request with
  | "start" => (startSequencingRequestProcess fuel e).map fun r => (e, r)
  | "resumeAll" => (resumeAllSequencingRequestProcess fuel e).map fun r => (e, r)
  | "continue" => (continueSequencingRequestProcess fuel e).map fun r => (e, r)
  | "previous" => (previousSequencingRequestProcess fuel e).map fun r => (e, r)
  | "choice" =>
    match targetId with
    | none => some (e, none)
    | some t =>
      if t = "" then some (e, none)
      else (choiceSequencingRequestProcess fuel e t).map fun r => (e, r)
  | "exit" => exitSequencingRequestProcess fuel e
  | "abandon" => (continueSequencingRequestProcess fuel e).map fun r => (e, r)
  | _ => some (e, none)

/-- The tail of `sequencingRequestProcess`: an identified activity is
reported valid; no activity sets `endSession` and reports
"No activity identified". -/
def seqTail (e1r : Engine × Option (List Nat)) : Engine × SeqOutcome :=
  match e1r with
  | (e1, some p) => (e1, .identified p)
  | (e1, none) => ({ e1 with endSession := true }, .invalid)

/-- `sequencingRequestProcess` of the source.  `exitAll` / `abandonAll`
return early with a valid-but-empty result. -/
def sequencingRequestProcess (fuel : Nat) (e : Engine) (request : String)
    (targetId : Option String) : Option (Engine × SeqOutcome) :=
  match request with
  | "exitAll" => some ({ e with endSession := true }, .validNothing)
  | "abandonAll" => some ({ e with endSession := true }, .validNothing)
  | _ => (identifiedActivityFor fuel e request targetId).map seqTail

/-- `deliveryRequestProcess` of the source: re-check deliverability,
commit the activity as current, set it active, run its entry rules. -/
def deliveryRequestProcess (e : Engine) (p : List Nat) :
    Engine × Option (List Nat) :=
  if !isActivityDeliverable e p then (e, none)
  else
    let e1 := { e with currentActivity := some p }
    let e2 := e1.upd p fun s => { s with activityIsActive := true }
    let e3 := sequencingRulesCheckProcess p .entry e2
    (e3, some p)

/-- `overallSequencingProcess` of the source.  Note the first statement
of the source resets `endSession := false` before anything else runs. -/
def overallSequencingProcess (fuel : Nat) (e : Engine) (navigationRequest : String)
    (targetActivityId : Option String) : Option (Engine × Option (List Nat)) :=
  let e0 := { e with endSession := false }
  match navigationRequestProcess e0 navigationRequest targetActivityId with
  | some _exc => some (e0, none)
  | none =>
    let e1 := if e0.currentActivity.isSome then terminationRequestProcess e0 else e0
    match sequencingRequestProcess fuel e1 navigationRequest targetActivityId with
    | none => none
    | some (e2, .identified p) => some (deliveryRequestProcess e2 p)
    | some (e2, _) => some (e2, none)

/-! ## Public API -/

/-- `processNavigationRequest` of the source: the delivered activity's
identifier, or `null`. -/
def processNavigationRequest (fuel : Nat) (e : Engine) (request : String)
    (targetId : Option String) : Option (Engine × Option String) :=
  (overallSequencingProcess fuel e request targetId).map fun er =>
    (er.1, er.2.bind fun p => (er.1.tree.get? p).map fun n => n.def.identifier)

/-- `getCurrentActivity` of the source. -/
def getCurrentActivity (e : Engine) : Option String :=
  e.currentActivity.bind fun p => (e.tree.get? p).map fun n => n.def.identifier

/-- `getAvailableNavigationRequests` of the source. -/
def getAvailableNavigationRequests (e : Engine) : List String :=
  match e.currentActivity with
  | none => []
  | some p =>
    match e.tree.get? p with
    | none => []
    | some n =>
      (if isContinueAllowed n.def.sequencingDefinition then ["continue"] else []) ++
      (if isPreviousAllowed n.def.sequencingDefinition then ["previous"] else []) ++
      (if isChoiceValidSD n.def.sequencingDefinition then ["choice"] else []) ++
      ["exit", "exitAll", "abandon", "abandonAll"]

/-! ## Activity tree construction -/

/-- A manifest `SCORMItem` (the fields `buildActivityChildren` reads). -/
inductive SItem where
  | mk (identifier : String) (identifierref : Option String) (isvisible : Option Bool)
       (sequencing : Option SCORMSequencing) (item : List SItem)

mutual
/-- One step of `buildActivityChildren`: leaf-ness is absence of
sub-items; the state starts at `initializeActivityState`. -/
def buildActivity : SItem → ATree
  | .mk id ref vis sq kids =>
    .node ⟨id, ref, vis, kids.isEmpty, sq⟩ initializeActivityState (buildForest kids)

/-- `buildActivityChildren` of the source. -/
def buildForest : List SItem → List ATree
  | [] => []
  | x :: xs => buildActivity x :: buildForest xs
end

/-- `buildActivityTree` of the source: the root is created with
`isLeaf := true` (hard-coded third argument), an empty item (so no
`identifierref`, no visibility flag) and no sequencing definition. -/
def buildActivityTree (orgIdentifier : String) (items : List SItem) : ATree :=
  .node ⟨orgIdentifier, none, none, true, none⟩ initializeActivityState
    (buildForest items)

/-- Engine construction from the first organization. -/
def initialEngine (orgIdentifier : String) (items : List SItem) (now : Int) : Engine where
  tree := buildActivityTree orgIdentifier items
  currentActivity := none
  endSession := false
  now := now

/-- States reachable from a freshly built engine by completed
navigation requests (fuel exhaustion, i.e. the source's unbounded
recursion, yields no successor state). -/
inductive Reachable (orgIdentifier : String) (items : List SItem) (now : Int) :
    Engine → Prop where
  | init : Reachable orgIdentifier items now (initialEngine orgIdentifier items now)
  | step {e e' : Engine} {r : Option (List Nat)} (fuel : Nat) (request : String)
      (targetId : Option String) :
      Reachable orgIdentifier items now e →
      overallSequencingProcess fuel e request targetId = some (e', r) →
      Reachable orgIdentifier items now e'

/-! ## Concrete scenario material (small trees used by the claims) -/

/-- One completed engine step, used to name intermediate states of the
concrete scenarios (fuel 20 is ample for these trees). -/
def stepEngine (e : Engine) (request : String) (targetId : Option String) : Engine :=
  match overallSequencingProcess 20 e request targetId with
  | some er => er.1
  | none => e

/-- The identifier (or `none`) a concrete step returns. -/
def stepResult (e : Engine) (request : String) (targetId : Option String) :
    Option String :=
  match processNavigationRequest 20 e request targetId with
  | some er => er.2
  | none => none

/-- A leaf manifest item bound to a resource. -/
def leafItem (id ref : String) (sq : Option SCORMSequencing) : SItem :=
  .mk id (some ref) none sq []

/-- The flat two-leaf organization of the spec's concrete scenario:
root → [A, B], no custom sequencing. -/
def orgAB : List SItem := [leafItem "A" "resA" none, leafItem "B" "resB" none]

/-- Fresh engine over `orgAB`. -/
def engAB : Engine := initialEngine "ORG" orgAB 0

/-- `orgAB` engine after `choice A` (delivers A). -/
def engAB1 : Engine := stepEngine engAB "choice" (some "A")

/-- `orgAB` engine after `choice A; exitAll`. -/
def engAB2 : Engine := stepEngine engAB1 "exitAll" none

/-- Precondition rule set of claim C2's scenario:
`{condition: "satisfied", operator: "not", action: "skip"}`. -/
def skipOnNotSatisfied : SCORMSequencing where
  controlMode := none
  sequencingRules :=
    some ⟨some [⟨"all", "skip", [⟨"satisfied", some "not", none, none⟩]⟩], none, none⟩
  limitConditions := none
  rollupRule := none

/-- Claim C2's tree: root → C → [Z, A, B], where A carries the
skip-when-not-satisfied precondition rule. -/
def orgSkip : List SItem :=
  [SItem.mk "C" none none none
    [leafItem "Z" "resZ" none,
     leafItem "A" "resA" (some skipOnNotSatisfied),
     leafItem "B" "resB" none]]

/-- Fresh engine over `orgSkip`. -/
def engSkip : Engine := initialEngine "ORG" orgSkip 0

/-- `orgSkip` engine after `choice Z` (delivers Z). -/
def engSkip1 : Engine := stepEngine engSkip "choice" (some "Z")

/-- An exit rule marking the activity complete on termination
(`skip` is the only state-marking action the engine implements). -/
def skipOnExit : SCORMSequencing where
  controlMode := none
  sequencingRules :=
    some ⟨none, some [⟨"all", "skip", [⟨"completed", some "not", none, none⟩]⟩], none⟩
  limitConditions := none
  rollupRule := none

/-- Claim C7's tree: root → [A, B], both leaves marking themselves
complete via an exit rule, default rollup everywhere. -/
def orgRoll : List SItem :=
  [leafItem "A" "resA" (some skipOnExit), leafItem "B" "resB" (some skipOnExit)]

/-- Fresh engine over `orgRoll`. -/
def engRoll : Engine := initialEngine "ORG" orgRoll 0

/-- `orgRoll` after `choice A; choice B; choice A`: both leaves have
been terminated (the last termination ran on B, the last such leaf). -/
def engRoll3 : Engine :=
  stepEngine (stepEngine (stepEngine engRoll "choice" (some "A")) "choice" (some "B"))
    "choice" (some "A")

/-- A sequencing definition whose control mode forbids choice. -/
def noChoiceMode : SCORMSequencing where
  controlMode := some ⟨some false, none, none⟩
  sequencingRules := none
  limitConditions := none
  rollupRule := none

/-- Claim C6's tree: root → [A, B] with `choice: false` on B. -/
def orgChoice : List SItem :=
  [leafItem "A" "resA" none, leafItem "B" "resB" (some noChoiceMode)]

/-- Fresh engine over `orgChoice`. -/
def engChoice : Engine := initialEngine "ORG" orgChoice 0

/-- `orgChoice` after `choice A; continue`: the failed continue leaves
`endSession = true` with A still the (inactive) current activity. -/
def engChoice2 : Engine :=
  stepEngine (stepEngine engChoice "choice" (some "A")) "continue" none

/-- The delivered node of `engAB1` (activity A), used by witnesses. -/
def nodeAB1 : ATree := (engAB1.tree.get? [0]).getD engAB1.tree

/-! ## Tree lemmas -/

/-- Static data of a node: its definition and its number of children.
Every state mutation of the engine preserves it at every path. -/
def statics (n : ATree) : ActivityDef × Nat := (n.def, n.children.length)

/-- Two engine states seen by the same tree skeleton: every path holds
a node with the same definition and the same number of children. -/
def StaticsEq (e e' : Engine) : Prop :=
  ∀ q : List Nat, (e'.tree.get? q).map statics = (e.tree.get? q).map statics

/-- The set of active activities does not grow from `e` to `e'`. -/
def Shrinks (e e' : Engine) : Prop :=
  ∀ (q : List Nat) (s' : ActivityStateInformation), e'.stAt q = some s' →
    s'.activityIsActive = true →
    ∃ s, e.stAt q = some s ∧ s.activityIsActive = true

/-- Claim C10's paired-status property of one activity state. -/
def PairsOKs (s : ActivityStateInformation) : Prop :=
  (s.activityCompletionStatus = true → s.activityProgressStatus = true) ∧
  ∀ kv ∈ s.objectives,
    kv.2.objectiveSatisfiedStatus = true → kv.2.objectiveProgressStatus = true

/-- Claim C10's paired-status property over the whole tree. -/
def PairsOK (e : Engine) : Prop :=
  ∀ (q : List Nat) (s : ActivityStateInformation), e.stAt q = some s → PairsOKs s

/-- Everything the termination/rollup side of a request can do to the
engine: statics preserved, current activity untouched, no activity
newly activated, paired statuses kept consistent. -/
def TameStep (e e' : Engine) : Prop :=
  StaticsEq e e' ∧ e'.currentActivity = e.currentActivity ∧ Shrinks e e' ∧
    (PairsOK e → PairsOK e')

/-- Claim C3's invariant: any active activity is the current one. -/
def ActiveOnly (e : Engine) : Prop :=
  ∀ (q : List Nat) (s : ActivityStateInformation), e.stAt q = some s →
    s.activityIsActive = true → e.currentActivity = some q

/-- No activity is active at all. -/
def NoActive (e : Engine) : Prop :=
  ∀ (q : List Nat) (s : ActivityStateInformation), e.stAt q = some s →
    s.activityIsActive = false

/-- Shape facts that hold of every engine built by
`buildActivityTree`: the root has no `identifierref`, and on every
other node the `isLeaf` flag means exactly "no children". -/
def ShapeOK (e : Engine) : Prop :=
  (∀ n, e.tree.get? [] = some n → n.def.identifierref = none) ∧
  ∀ q : List Nat, q ≠ [] → ∀ n, e.tree.get? q = some n →
    (n.def.isLeaf = true ↔ n.children.length = 0)

/-- A state transformer that never turns the active flag on. -/
def activeMono (f : ActivityStateInformation → ActivityStateInformation) : Prop :=
  ∀ s, (f s).activityIsActive = true → s.activityIsActive = true

/-- A state transformer preserving the paired-status property. -/
def pairsPres (f : ActivityStateInformation → ActivityStateInformation) : Prop :=
  ∀ s, PairsOKs s → PairsOKs (f s)

theorem get?_updAt_statics (f : ActivityStateInformation → ActivityStateInformation) :
    ∀ (p : List Nat) (t : ATree) (q : List Nat),
      ((t.updAt f p).get? q).map statics = (t.get? q).map statics := by
  intro p
  induction p with
  | nil =>
    intro t q
    cases t with
    | node d s cs =>
      cases q with
      | nil => rfl
      | cons j r => rfl
  | cons i rest ih =>
    intro t q
    cases t with
    | node d s cs =>
      show ((ATree.updAt f (.node d s cs) (i :: rest)).get? q).map statics = _
      rw [ATree.updAt]
      cases hci : cs[i]? with
      | none => rfl
      | some c =>
        cases q with
        | nil => simp [ATree.get?, statics, ATree.def, ATree.children]
        | cons j r =>
          by_cases hij : i = j
          · subst hij
            have hlen : i < cs.length := List.getElem?_eq_some_iff.mp hci |>.1
            simp only [ATree.get?, List.getElem?_set_self' (l := cs)]
            rw [hci]
            simpa using ih c r
          · simp only [ATree.get?, List.getElem?_set_ne hij]

theorem get?_updAt_state_ne (f : ActivityStateInformation → ActivityStateInformation) :
    ∀ (p : List Nat) (t : ATree) (q : List Nat), p ≠ q →
      ((t.updAt f p).get? q).map ATree.state = (t.get? q).map ATree.state := by
  intro p
  induction p with
  | nil =>
    intro t q hne
    cases t with
    | node d s cs =>
      cases q with
      | nil => exact absurd rfl hne
      | cons j r => rfl
  | cons i rest ih =>
    intro t q hne
    cases t with
    | node d s cs =>
      rw [ATree.updAt]
      cases hci : cs[i]? with
      | none => rfl
      | some c =>
        cases q with
        | nil => rfl
        | cons j r =>
          by_cases hij : i = j
          · subst hij
            simp only [ATree.get?, List.getElem?_set_self' (l := cs)]
            rw [hci]
            have hrr : rest ≠ r := fun h => hne (by rw [h])
            simpa using ih c r hrr
          · simp only [ATree.get?, List.getElem?_set_ne hij]

theorem get?_updAt_state_self (f : ActivityStateInformation → ActivityStateInformation) :
    ∀ (p : List Nat) (t : ATree),
      ((t.updAt f p).get? p).map ATree.state = ((t.get? p).map ATree.state).map f := by
  intro p
  induction p with
  | nil =>
    intro t
    cases t with
    | node d s cs => rfl
  | cons i rest ih =>
    intro t
    cases t with
    | node d s cs =>
      rw [ATree.updAt]
      cases hci : cs[i]? with
      | none => simp [ATree.get?, hci]
      | some c =>
        simp only [ATree.get?, List.getElem?_set_self' (l := cs)]
        rw [hci]
        simpa using ih c

theorem resetForest_eq_map : ∀ cs : List ATree, resetForest cs = cs.map resetTree := by
  intro cs
  induction cs with
  | nil => rfl
  | cons c rest ih => rw [resetForest, ih, List.map_cons]

theorem get?_resetTree : ∀ (q : List Nat) (t : ATree),
    (resetTree t).get? q = (t.get? q).map resetTree := by
  intro q
  induction q with
  | nil =>
    intro t
    cases t with
    | node d s cs => rfl
  | cons j r ih =>
    intro t
    cases t with
    | node d s cs =>
      rw [resetTree, resetForest_eq_map]
      simp only [ATree.get?, List.getElem?_map resetTree cs j]
      cases hcj : cs[j]? with
      | none => rfl
      | some c => simpa using ih c

theorem statics_resetTree (t : ATree) : statics (resetTree t) = statics t := by
  cases t with
  | node d s cs =>
    simp [resetTree, statics, ATree.def, ATree.children, resetForest_eq_map]

theorem state_resetTree (t : ATree) : (resetTree t).state = initializeActivityState := by
  cases t with
  | node d s cs => rfl

theorem stAt_upd_self (e : Engine) (p : List Nat)
    (f : ActivityStateInformation → ActivityStateInformation) :
    (e.upd p f).stAt p = (e.stAt p).map f := by
  show ((e.tree.updAt f p).get? p).map ATree.state = ((e.tree.get? p).map ATree.state).map f
  exact get?_updAt_state_self f p e.tree

theorem stAt_upd_ne (e : Engine) (p q : List Nat)
    (f : ActivityStateInformation → ActivityStateInformation) (h : p ≠ q) :
    (e.upd p f).stAt q = e.stAt q := by
  show ((e.tree.updAt f p).get? q).map ATree.state = (e.tree.get? q).map ATree.state
  exact get?_updAt_state_ne f p e.tree q h

/-! ## TameStep machinery -/

theorem tameStep_refl (e : Engine) : TameStep e e :=
  ⟨fun _ => rfl, rfl, fun _q s' h ha => ⟨s', h, ha⟩, id⟩

theorem tameStep_trans {a b c : Engine} (h1 : TameStep a b) (h2 : TameStep b c) :
    TameStep a c := by
  obtain ⟨s1, c1, k1, p1⟩ := h1
  obtain ⟨s2, c2, k2, p2⟩ := h2
  refine ⟨fun q => (s2 q).trans (s1 q), c2.trans c1, ?_, fun hp => p2 (p1 hp)⟩
  intro q s' h ha
  obtain ⟨sm, hm, ham⟩ := k2 q s' h ha
  exact k1 q sm hm ham

theorem tameStep_upd {e : Engine} {p : List Nat}
    {f : ActivityStateInformation → ActivityStateInformation}
    (hact : activeMono f) (hpair : pairsPres f) : TameStep e (e.upd p f) := by
  refine ⟨fun q => get?_updAt_statics f p e.tree q, rfl, ?_, ?_⟩
  · intro q s' h ha
    by_cases hpq : p = q
    · subst hpq
      have := get?_updAt_state_self f p e.tree
      rw [show (e.upd p f).stAt p = ((e.tree.updAt f p).get? p).map ATree.state from rfl]
        at h
      rw [this] at h
      cases hst : e.tree.get? p with
      | none => rw [show e.stAt p = (e.tree.get? p).map ATree.state from rfl]; rw [hst] at h; cases h
      | some n =>
        rw [hst] at h
        have hfs := Option.some.inj h
        refine ⟨n.state, by simp [Engine.stAt, hst], ?_⟩
        rw [← hfs] at ha
        exact hact n.state ha
    · have := get?_updAt_state_ne f p e.tree q hpq
      rw [show (e.upd p f).stAt q = ((e.tree.updAt f p).get? q).map ATree.state from rfl,
        this] at h
      exact ⟨s', h, ha⟩
  · intro hp q s h
    by_cases hpq : p = q
    · subst hpq
      have heq := get?_updAt_state_self f p e.tree
      rw [show (e.upd p f).stAt p = ((e.tree.updAt f p).get? p).map ATree.state from rfl,
        heq] at h
      cases hst : e.tree.get? p with
      | none => rw [hst] at h; cases h
      | some n =>
        rw [hst] at h
        have hfs := Option.some.inj h
        have hn : PairsOKs n.state := hp p n.state (by simp [Engine.stAt, hst])
        rw [← hfs]
        exact hpair n.state hn
    · have heq := get?_updAt_state_ne f p e.tree q hpq
      rw [show (e.upd p f).stAt q = ((e.tree.updAt f p).get? q).map ATree.state from rfl,
        heq] at h
      exact hp q s h

theorem tameStep_endSession {e : Engine} {b : Bool} :
    TameStep e { e with endSession := b } :=
  ⟨fun _ => rfl, rfl, fun _q s' h ha => ⟨s', h, ha⟩, id⟩

theorem pairsOKs_init : PairsOKs initializeActivityState := by
  constructor
  · intro h; cases h
  · intro kv hkv; cases hkv

theorem tameStep_resetAll {e : Engine} : TameStep e { e with tree := resetTree e.tree } := by
  refine ⟨?_, rfl, ?_, ?_⟩
  · intro q
    show ((resetTree e.tree).get? q).map statics = _
    rw [get?_resetTree q e.tree]
    cases h : e.tree.get? q with
    | none => rfl
    | some n => simp [statics_resetTree]
  · intro q s' h ha
    rw [show Engine.stAt { e with tree := resetTree e.tree } q =
      ((resetTree e.tree).get? q).map ATree.state from rfl, get?_resetTree q e.tree] at h
    cases hq : e.tree.get? q with
    | none => rw [hq] at h; cases h
    | some n =>
      rw [hq] at h
      simp only [Option.map_some', Option.some.injEq] at h
      rw [← h, state_resetTree] at ha
      cases ha
  · intro _ q s h
    rw [show Engine.stAt { e with tree := resetTree e.tree } q =
      ((resetTree e.tree).get? q).map ATree.state from rfl, get?_resetTree q e.tree] at h
    cases hq : e.tree.get? q with
    | none => rw [hq] at h; cases h
    | some n =>
      rw [hq] at h
      simp only [Option.map_some', Option.some.injEq] at h
      rw [← h, state_resetTree]
      exact pairsOKs_init

theorem tameStep_foldl {α : Type} (g : Engine → α → Engine)
    (h : ∀ (e : Engine) (x : α), TameStep e (g e x)) :
    ∀ (l : List α) (e : Engine), TameStep e (l.foldl g e) := by
  intro l
  induction l with
  | nil => intro e; exact tameStep_refl e
  | cons x rest ih =>
    intro e
    exact tameStep_trans (h e x) (ih (g e x))

theorem mem_updFirst {key : String} {f : ObjectiveState → ObjectiveState} :
    ∀ {l : List (String × ObjectiveState)} {kv : String × ObjectiveState},
      kv ∈ updFirst key f l → kv ∈ l ∨ ∃ kv0 ∈ l, kv = (kv0.1, f kv0.2) := by
  intro l
  induction l with
  | nil => intro kv h; cases h
  | cons hd rest ih =>
    intro kv h
    rw [updFirst] at h
    by_cases hk : hd.1 = key
    · rw [if_pos hk] at h
      rcases List.mem_cons.mp h with h1 | h2
      · exact Or.inr ⟨hd, List.mem_cons_self hd rest, h1⟩
      · exact Or.inl (List.mem_cons_of_mem hd h2)
    · rw [if_neg hk] at h
      rcases List.mem_cons.mp h with h1 | h2
      · exact Or.inl (h1 ▸ List.mem_cons_self hd rest)
      · rcases ih h2 with h3 | ⟨kv0, hkv0, hkv⟩
        · exact Or.inl (List.mem_cons_of_mem hd h3)
        · exact Or.inr ⟨kv0, List.mem_cons_of_mem hd hkv0, hkv⟩

theorem pairsPres_setObjSat (b : Bool) (oid : Option String) :
    pairsPres (setObjectiveSatisfiedStatusS b oid) := by
  intro s hs
  obtain ⟨hcomp, hobj⟩ := hs
  unfold setObjectiveSatisfiedStatusS
  split
  · refine ⟨hcomp, ?_⟩
    intro kv hkv _hsat
    rcases mem_updFirst hkv with h1 | ⟨kv0, _hkv0, hkv0eq⟩
    · exact hobj kv h1 _hsat
    · rw [hkv0eq]
      rfl
  · refine ⟨hcomp, ?_⟩
    intro kv hkv _hsat
    rcases List.mem_append.mp hkv with h1 | h2
    · exact hobj kv h1 _hsat
    · rw [List.mem_singleton.mp h2]
      rfl

theorem active_setObjSat (b : Bool) (oid : Option String)
    (s : ActivityStateInformation) :
    (setObjectiveSatisfiedStatusS b oid s).activityIsActive = s.activityIsActive := by
  unfold setObjectiveSatisfiedStatusS
  split <;> rfl

theorem activeMono_setObjSat (b : Bool) (oid : Option String) :
    activeMono (setObjectiveSatisfiedStatusS b oid) := by
  intro s h
  rw [active_setObjSat] at h
  exact h

theorem pairsPres_markComplete :
    pairsPres fun s =>
      { s with activityProgressStatus := true, activityCompletionStatus := true } := by
  intro s hs
  exact ⟨fun _ => rfl, hs.2⟩

theorem pairsPres_markIncomplete :
    pairsPres fun s =>
      { s with activityProgressStatus := true, activityCompletionStatus := false } := by
  intro s hs
  refine ⟨fun h => ?_, hs.2⟩
  cases h

theorem activeMono_markStatus (pk ck : Bool) :
    activeMono fun s =>
      { s with activityProgressStatus := pk, activityCompletionStatus := ck } := by
  intro s h
  exact h

theorem tameStep_executeRollupAction (action : String) (p : List Nat) (e : Engine) :
    TameStep e (executeRollupAction action p e) := by
  unfold executeRollupAction
  split
  · exact tameStep_upd (activeMono_setObjSat true none) (pairsPres_setObjSat true none)
  · exact tameStep_upd (activeMono_setObjSat false none) (pairsPres_setObjSat false none)
  · exact tameStep_upd (activeMono_markStatus true true) pairsPres_markComplete
  · exact tameStep_upd (activeMono_markStatus true false) pairsPres_markIncomplete
  · exact tameStep_refl e

theorem tameStep_executeRuleAction (action : String) (p : List Nat) (e : Engine) :
    TameStep e (executeRuleAction action p e) := by
  unfold executeRuleAction
  split
  · exact tameStep_upd (activeMono_markStatus true true) pairsPres_markComplete
  · exact tameStep_endSession
  · exact tameStep_upd (fun s h => by cases h) (fun s _ => pairsOKs_init)
  · exact tameStep_resetAll
  · exact tameStep_refl e

theorem tameStep_rulesCheck (p : List Nat) (event : RuleEvent) (e : Engine) :
    TameStep e (sequencingRulesCheckProcess p event e) := by
  unfold sequencingRulesCheckProcess
  split
  · exact tameStep_refl e
  · split
    · exact tameStep_refl e
    · apply tameStep_foldl
      intro e1 rule
      split
      · exact tameStep_refl e1
      · split
        · exact tameStep_executeRuleAction rule.action p e1
        · exact tameStep_refl e1

theorem tameStep_applyRollupRule (rule : SCORMRollupRule) (p : List Nat) (e : Engine) :
    TameStep e (applyRollupRule rule p e) := by
  unfold applyRollupRule
  split
  · exact tameStep_refl e
  · dsimp only
    split
    · split
      · exact tameStep_executeRollupAction rule.action p e
      · exact tameStep_refl e
    · split
      · exact tameStep_executeRollupAction rule.action p e
      · exact tameStep_refl e

theorem tameStep_applyDefaultRollup (p : List Nat) (e : Engine) :
    TameStep e (applyDefaultRollup p e) := by
  unfold applyDefaultRollup
  split
  · exact tameStep_refl e
  · dsimp only
    split
    · split
      · exact tameStep_trans
          (tameStep_upd (activeMono_markStatus true true) pairsPres_markComplete)
          (tameStep_upd (activeMono_setObjSat true none) (pairsPres_setObjSat true none))
      · exact tameStep_upd (activeMono_setObjSat true none) (pairsPres_setObjSat true none)
    · split
      · exact tameStep_upd (activeMono_markStatus true true) pairsPres_markComplete
      · exact tameStep_refl e

theorem tameStep_rollupActivityState (p : List Nat) (e : Engine) :
    TameStep e (rollupActivityState p e) := by
  unfold rollupActivityState
  split
  · exact tameStep_refl e
  · split
    · exact tameStep_refl e
    · split
      · exact tameStep_foldl (fun acc rule => applyRollupRule rule p acc)
          (fun e1 rule => tameStep_applyRollupRule rule p e1) _ e
      · exact tameStep_applyDefaultRollup p e

theorem tameStep_rollupProcess (p : List Nat) (e : Engine) :
    TameStep e (rollupProcess p e) :=
  tameStep_foldl (fun acc q => rollupActivityState q acc)
    (fun e1 q => tameStep_rollupActivityState q e1) (ancestorChain p) e

theorem activeMono_clearActive :
    activeMono fun s => { s with activityIsActive := false } := by
  intro s h
  rw [show ({ s with activityIsActive := false } :
    ActivityStateInformation).activityIsActive = false from rfl] at h
  cases h

theorem pairsPres_clearActive :
    pairsPres fun s => { s with activityIsActive := false } := by
  intro s hs
  exact ⟨fun h => hs.1 h, hs.2⟩

theorem tameStep_termination (e : Engine) :
    TameStep e (terminationRequestProcess e) := by
  unfold terminationRequestProcess
  split
  · exact tameStep_refl e
  · dsimp only
    exact tameStep_trans
      (tameStep_upd activeMono_clearActive pairsPres_clearActive)
      (tameStep_trans (tameStep_rulesCheck _ .exit _) (tameStep_rollupProcess _ _))

/-! ## Activity-flag lemmas around termination and delivery -/

theorem noActive_of_shrinks {e e' : Engine} (h : Shrinks e e') (hn : NoActive e) :
    NoActive e' := by
  intro q s' hq
  by_contra hne
  have ha : s'.activityIsActive = true := by
    cases hb : s'.activityIsActive
    · exact absurd hb hne
    · rfl
  obtain ⟨s, hs, has⟩ := h q s' hq ha
  rw [hn q s hs] at has
  cases has

theorem noActive_termination {e : Engine} {c : List Nat} (hao : ActiveOnly e)
    (hc : e.currentActivity = some c) : NoActive (terminationRequestProcess e) := by
  unfold terminationRequestProcess
  rw [hc]
  have hn1 : NoActive (e.upd c fun s => { s with activityIsActive := false }) := by
    intro q s' hq
    by_cases hcq : c = q
    · subst hcq
      rw [show (e.upd c fun s => { s with activityIsActive := false }).stAt c =
        ((e.tree.updAt (fun s => { s with activityIsActive := false }) c).get? c).map
          ATree.state from rfl, get?_updAt_state_self] at hq
      cases hst : e.tree.get? c with
      | none => rw [hst] at hq; cases hq
      | some n =>
        rw [hst] at hq
        have := Option.some.inj hq
        rw [← this]
    · rw [show (e.upd c fun s => { s with activityIsActive := false }).stAt q =
        ((e.tree.updAt (fun s => { s with activityIsActive := false }) c).get? q).map
          ATree.state from rfl, get?_updAt_state_ne _ _ _ _ hcq] at hq
      cases hb : s'.activityIsActive
      · rfl
      · have := hao q s' hq hb
        rw [hc] at this
        exact absurd (Option.some.inj this) hcq
  have h2 := tameStep_rulesCheck c .exit (e.upd c fun s => { s with activityIsActive := false })
  have h3 := tameStep_rollupProcess c
    (sequencingRulesCheckProcess c .exit (e.upd c fun s => { s with activityIsActive := false }))
  exact noActive_of_shrinks h3.2.2.1 (noActive_of_shrinks h2.2.2.1 hn1)

theorem noActive_of_activeOnly_none {e : Engine} (hao : ActiveOnly e)
    (hc : e.currentActivity = none) : NoActive e := by
  intro q s hq
  cases hb : s.activityIsActive
  · rfl
  · rw [hao q s hq hb] at hc
    cases hc

theorem activeOnly_of_noActive {e : Engine} (hn : NoActive e) : ActiveOnly e := by
  intro q s hq ha
  rw [hn q s hq] at ha
  cases ha

theorem activeOnly_delivery {e : Engine} {p : List Nat} (hn : NoActive e) :
    ActiveOnly (deliveryRequestProcess e p).1 := by
  unfold deliveryRequestProcess
  split
  · exact activeOnly_of_noActive hn
  · dsimp only
    have hset : ActiveOnly
        ({ e with currentActivity := some p }.upd p fun s =>
          { s with activityIsActive := true }) := by
      intro q s' hq ha
      by_cases hpq : p = q
      · rw [hpq]; rfl
      · rw [stAt_upd_ne _ _ _ _ hpq] at hq
        rw [hn q s' hq] at ha
        cases ha
    have h3 := tameStep_rulesCheck p .entry
      ({ e with currentActivity := some p }.upd p fun s =>
        { s with activityIsActive := true })
    intro q s' hq ha
    obtain ⟨s, hs, has⟩ := h3.2.2.1 q s' hq ha
    rw [h3.2.1]
    exact hset q s hs has

/-! ## The sequencing-request handlers only touch `endSession` -/

theorem exitSeq_tree_current {fuel : Nat} {e e1 : Engine} {r : Option (List Nat)}
    (h : exitSequencingRequestProcess fuel e = some (e1, r)) :
    e1.tree = e.tree ∧ e1.currentActivity = e.currentActivity := by
  unfold exitSequencingRequestProcess at h
  split at h
  · cases h
    exact ⟨rfl, rfl⟩
  · split at h
    · cases h
      exact ⟨rfl, rfl⟩
    · rcases Option.map_eq_some'.mp h with ⟨r0, _hr0, hpair⟩
      cases hpair
      exact ⟨rfl, rfl⟩

theorem identifiedFor_tree_current {fuel : Nat} {e e1 : Engine} {request : String}
    {targetId : Option String} {r : Option (List Nat)}
    (h : identifiedActivityFor fuel e request targetId = some (e1, r)) :
    e1.tree = e.tree ∧ e1.currentActivity = e.currentActivity := by
  unfold identifiedActivityFor at h
  split at h
  all_goals first
    | (rcases Option.map_eq_some'.mp h with ⟨r0, _hr0, hpair⟩
       cases hpair
       exact ⟨rfl, rfl⟩)
    | (exact exitSeq_tree_current h)
    | (cases h; exact ⟨rfl, rfl⟩)
    | skip
  split at h
  · cases h
    exact ⟨rfl, rfl⟩
  · split at h
    · cases h
      exact ⟨rfl, rfl⟩
    · rcases Option.map_eq_some'.mp h with ⟨r0, _hr0, hpair⟩
      cases hpair
      exact ⟨rfl, rfl⟩

theorem seqReq_tree_current {fuel : Nat} {e e2 : Engine} {request : String}
    {targetId : Option String} {out : SeqOutcome}
    (h : sequencingRequestProcess fuel e request targetId = some (e2, out)) :
    e2.tree = e.tree ∧ e2.currentActivity = e.currentActivity := by
  unfold sequencingRequestProcess at h
  split at h
  · cases h
    exact ⟨rfl, rfl⟩
  · cases h
    exact ⟨rfl, rfl⟩
  · rcases Option.map_eq_some'.mp h with ⟨⟨e1, r⟩, hido, hpair⟩
    have hbase := identifiedFor_tree_current hido
    cases r with
    | some p =>
      cases hpair
      exact hbase
    | none =>
      cases hpair
      exact ⟨hbase.1, hbase.2⟩

/-! ## Step preservation through the overall sequencing process -/

theorem pairsOK_of_treeEq {e e' : Engine} (h : e'.tree = e.tree) (hp : PairsOK e) :
    PairsOK e' := by
  intro q s hq
  rw [show e'.stAt q = (e'.tree.get? q).map ATree.state from rfl, h] at hq
  exact hp q s hq

theorem noActive_of_treeEq {e e' : Engine} (h : e'.tree = e.tree) (hn : NoActive e) :
    NoActive e' := by
  intro q s hq
  rw [show e'.stAt q = (e'.tree.get? q).map ATree.state from rfl, h] at hq
  exact hn q s hq

theorem staticsEq_of_treeEq {e e' : Engine} (h : e'.tree = e.tree) : StaticsEq e e' := by
  intro q
  rw [h]

theorem staticsEq_trans {a b c : Engine} (h1 : StaticsEq a b) (h2 : StaticsEq b c) :
    StaticsEq a c := fun q => (h2 q).trans (h1 q)

theorem delivery_statics (e : Engine) (p : List Nat) :
    StaticsEq e (deliveryRequestProcess e p).1 := by
  unfold deliveryRequestProcess
  split
  · exact staticsEq_of_treeEq rfl
  · dsimp only
    apply staticsEq_trans (b := { e with currentActivity := some p }.upd p fun s =>
      { s with activityIsActive := true })
    · intro q
      exact get?_updAt_statics _ p e.tree q
    · exact (tameStep_rulesCheck p .entry _).1

theorem delivery_pairs (e : Engine) (p : List Nat) (hp : PairsOK e) :
    PairsOK (deliveryRequestProcess e p).1 := by
  unfold deliveryRequestProcess
  split
  · exact hp
  · dsimp only
    apply (tameStep_rulesCheck p .entry _).2.2.2
    have hmid : PairsOK ({ e with currentActivity := some p } : Engine) :=
      pairsOK_of_treeEq rfl hp
    intro q s hq
    by_cases hpq : p = q
    · subst hpq
      rw [stAt_upd_self] at hq
      cases hst : Engine.stAt { e with currentActivity := some p } p with
      | none => rw [hst] at hq; cases hq
      | some s0 =>
        rw [hst] at hq
        have hfs := Option.some.inj hq
        have hs0 : PairsOKs s0 := hmid p s0 hst
        rw [← hfs]
        exact ⟨fun h => hs0.1 h, hs0.2⟩
    · rw [stAt_upd_ne _ _ _ _ hpq] at hq
      exact hmid q s hq

theorem step_statics {fuel : Nat} {e e' : Engine} {request : String}
    {targetId : Option String} {r : Option (List Nat)}
    (h : overallSequencingProcess fuel e request targetId = some (e', r)) :
    StaticsEq e e' := by
  unfold overallSequencingProcess at h
  dsimp only at h
  split at h
  · cases h
    exact staticsEq_of_treeEq rfl
  · split at h
    · cases h
    · rename_i e2 p heq
      have hfst := congrArg Prod.fst (Option.some.inj h)
      dsimp only at hfst
      rw [← hfst]
      refine staticsEq_trans ?_ (delivery_statics e2 p)
      refine staticsEq_trans (b := if ({ e with endSession := false } : Engine).currentActivity.isSome then
        terminationRequestProcess { e with endSession := false }
        else { e with endSession := false }) ?_ ?_
      · split
        · exact staticsEq_trans (staticsEq_of_treeEq rfl) (tameStep_termination _).1
        · exact staticsEq_of_treeEq rfl
      · exact staticsEq_of_treeEq (seqReq_tree_current heq).1
    · rename_i e2 out hne heq
      cases h
      refine staticsEq_trans (b := if ({ e with endSession := false } : Engine).currentActivity.isSome then
        terminationRequestProcess { e with endSession := false }
        else { e with endSession := false }) ?_ ?_
      · split
        · exact staticsEq_trans (staticsEq_of_treeEq rfl) (tameStep_termination _).1
        · exact staticsEq_of_treeEq rfl
      · exact staticsEq_of_treeEq (seqReq_tree_current heq).1

theorem overall_dissect {fuel : Nat} {e e' : Engine} {request : String}
    {targetId : Option String} {r : Option (List Nat)}
    (h : overallSequencingProcess fuel e request targetId = some (e', r)) :
    (e' = { e with endSession := false } ∧ r = none ∧
      (navigationRequestProcess { e with endSession := false } request targetId).isSome
        = true) ∨
    ∃ e2 out,
      navigationRequestProcess { e with endSession := false } request targetId = none ∧
      sequencingRequestProcess fuel
        (if ({ e with endSession := false } : Engine).currentActivity.isSome then
          terminationRequestProcess { e with endSession := false }
         else { e with endSession := false }) request targetId = some (e2, out) ∧
      ((∃ p, out = .identified p ∧ (e', r) = deliveryRequestProcess e2 p) ∨
       ((∀ p, out ≠ SeqOutcome.identified p) ∧ e' = e2 ∧ r = none)) := by
  unfold overallSequencingProcess at h
  dsimp only at h
  split at h
  · rename_i exc heq
    cases h
    refine Or.inl ⟨rfl, rfl, ?_⟩
    rw [heq]
    rfl
  · rename_i heq
    split at h
    · cases h
    · rename_i e2 p heq2
      refine Or.inr ⟨e2, .identified p, heq, heq2, Or.inl ⟨p, rfl, ?_⟩⟩
      exact (Option.some.inj h).symm
    · rename_i e2 out hne heq2
      cases h
      exact Or.inr ⟨e', out, heq, heq2, Or.inr ⟨hne, rfl, rfl⟩⟩

theorem noActive_term_or_id {E : Engine} (hao : ActiveOnly E) :
    NoActive (if E.currentActivity.isSome then terminationRequestProcess E else E) := by
  cases hc : E.currentActivity with
  | some c =>
    exact noActive_termination hao hc
  | none =>
    exact noActive_of_activeOnly_none hao hc

theorem step_activeOnly {fuel : Nat} {e e' : Engine} {request : String}
    {targetId : Option String} {r : Option (List Nat)} (hao : ActiveOnly e)
    (h : overallSequencingProcess fuel e request targetId = some (e', r)) :
    ActiveOnly e' := by
  rcases overall_dissect h with ⟨he', _, _⟩ | ⟨e2, out, _hnav, hseq, hrest⟩
  · rw [he']
    intro q s hq ha
    exact hao q s hq ha
  · have hao0 : ActiveOnly ({ e with endSession := false } : Engine) := fun q s hq ha =>
      hao q s hq ha
    have hn1 := noActive_term_or_id hao0
    have hn2 : NoActive e2 := noActive_of_treeEq (seqReq_tree_current hseq).1 hn1
    rcases hrest with ⟨p, _hout, hpair⟩ | ⟨_hne, he', _⟩
    · have : e' = (deliveryRequestProcess e2 p).1 := congrArg Prod.fst hpair
      rw [this]
      exact activeOnly_delivery hn2
    · rw [he']
      exact activeOnly_of_noActive hn2

theorem step_pairsOK {fuel : Nat} {e e' : Engine} {request : String}
    {targetId : Option String} {r : Option (List Nat)} (hp : PairsOK e)
    (h : overallSequencingProcess fuel e request targetId = some (e', r)) :
    PairsOK e' := by
  rcases overall_dissect h with ⟨he', _, _⟩ | ⟨e2, out, _hnav, hseq, hrest⟩
  · rw [he']
    exact pairsOK_of_treeEq rfl hp
  · have hp0 : PairsOK ({ e with endSession := false } : Engine) :=
      pairsOK_of_treeEq rfl hp
    have hp1 : PairsOK (if ({ e with endSession := false } : Engine).currentActivity.isSome
        then terminationRequestProcess { e with endSession := false }
        else { e with endSession := false }) := by
      split
      · exact (tameStep_termination _).2.2.2 hp0
      · exact hp0
    have hp2 : PairsOK e2 := pairsOK_of_treeEq (seqReq_tree_current hseq).1 hp1
    rcases hrest with ⟨p, _hout, hpair⟩ | ⟨_hne, he', _⟩
    · have : e' = (deliveryRequestProcess e2 p).1 := congrArg Prod.fst hpair
      rw [this]
      exact delivery_pairs e2 p hp2
    · rw [he']
      exact hp2

/-! ## Facts about freshly built trees -/

theorem buildForest_eq_map : ∀ l : List SItem, buildForest l = l.map buildActivity := by
  intro l
  induction l with
  | nil => rfl
  | cons x xs ih => rw [buildForest, ih, List.map_cons]

theorem buildActivity_get?_state : ∀ (q : List Nat) (it : SItem) (n : ATree),
    (buildActivity it).get? q = some n → n.state = initializeActivityState := by
  intro q
  induction q with
  | nil =>
    intro it n h
    cases it with
    | mk id ref vis sq kids =>
      rw [buildActivity] at h
      rw [← Option.some.inj h]
      rfl
  | cons i r ih =>
    intro it n h
    cases it with
    | mk id ref vis sq kids =>
      rw [buildActivity] at h
      rw [show (ATree.node ⟨id, ref, vis, kids.isEmpty, sq⟩ initializeActivityState
        (buildForest kids)).get? (i :: r) =
        ((buildForest kids)[i]?.bind fun c => c.get? r) from rfl,
        buildForest_eq_map, List.getElem?_map] at h
      cases hk : kids[i]? with
      | none => rw [hk] at h; cases h
      | some it2 =>
        rw [hk] at h
        simp only [Option.map_some'] at h
        exact ih it2 n h

theorem buildActivity_get?_leaf : ∀ (q : List Nat) (it : SItem) (n : ATree),
    (buildActivity it).get? q = some n →
    (n.def.isLeaf = true ↔ n.children.length = 0) := by
  intro q
  induction q with
  | nil =>
    intro it n h
    cases it with
    | mk id ref vis sq kids =>
      rw [buildActivity] at h
      rw [← Option.some.inj h]
      show (kids.isEmpty = true ↔ (buildForest kids).length = 0)
      rw [buildForest_eq_map, List.length_map]
      cases kids with
      | nil => simp
      | cons k ks => simp
  | cons i r ih =>
    intro it n h
    cases it with
    | mk id ref vis sq kids =>
      rw [buildActivity] at h
      rw [show (ATree.node ⟨id, ref, vis, kids.isEmpty, sq⟩ initializeActivityState
        (buildForest kids)).get? (i :: r) =
        ((buildForest kids)[i]?.bind fun c => c.get? r) from rfl,
        buildForest_eq_map, List.getElem?_map] at h
      cases hk : kids[i]? with
      | none => rw [hk] at h; cases h
      | some it2 =>
        rw [hk] at h
        simp only [Option.map_some'] at h
        exact ih it2 n h

theorem initial_state_init (orgId : String) (items : List SItem) (now : Int) :
    ∀ (q : List Nat) (n : ATree),
      (initialEngine orgId items now).tree.get? q = some n →
      n.state = initializeActivityState := by
  intro q n h
  cases q with
  | nil =>
    rw [← Option.some.inj h]
    rfl
  | cons i r =>
    rw [show (initialEngine orgId items now).tree.get? (i :: r) =
      ((buildForest items)[i]?.bind fun c => c.get? r) from rfl,
      buildForest_eq_map, List.getElem?_map] at h
    cases hk : items[i]? with
    | none => rw [hk] at h; cases h
    | some it2 =>
      rw [hk] at h
      simp only [Option.map_some'] at h
      exact buildActivity_get?_state r it2 n h

theorem activeOnly_initial (orgId : String) (items : List SItem) (now : Int) :
    ActiveOnly (initialEngine orgId items now) := by
  intro q s hq ha
  cases hg : (initialEngine orgId items now).tree.get? q with
  | none =>
    rw [show (initialEngine orgId items now).stAt q =
      ((initialEngine orgId items now).tree.get? q).map ATree.state from rfl, hg] at hq
    cases hq
  | some n =>
    rw [show (initialEngine orgId items now).stAt q =
      ((initialEngine orgId items now).tree.get? q).map ATree.state from rfl, hg] at hq
    rw [← Option.some.inj hq, initial_state_init orgId items now q n hg] at ha
    cases ha

theorem pairsOK_initial (orgId : String) (items : List SItem) (now : Int) :
    PairsOK (initialEngine orgId items now) := by
  intro q s hq
  cases hg : (initialEngine orgId items now).tree.get? q with
  | none =>
    rw [show (initialEngine orgId items now).stAt q =
      ((initialEngine orgId items now).tree.get? q).map ATree.state from rfl, hg] at hq
    cases hq
  | some n =>
    rw [show (initialEngine orgId items now).stAt q =
      ((initialEngine orgId items now).tree.get? q).map ATree.state from rfl, hg] at hq
    rw [← Option.some.inj hq, initial_state_init orgId items now q n hg]
    exact pairsOKs_init

theorem shapeOK_initial (orgId : String) (items : List SItem) (now : Int) :
    ShapeOK (initialEngine orgId items now) := by
  constructor
  · intro n h
    rw [← Option.some.inj h]
    rfl
  · intro q hq n h
    cases q with
    | nil => exact absurd rfl hq
    | cons i r =>
      rw [show (initialEngine orgId items now).tree.get? (i :: r) =
        ((buildForest items)[i]?.bind fun c => c.get? r) from rfl,
        buildForest_eq_map, List.getElem?_map] at h
      cases hk : items[i]? with
      | none => rw [hk] at h; cases h
      | some it2 =>
        rw [hk] at h
        simp only [Option.map_some'] at h
        exact buildActivity_get?_leaf r it2 n h

theorem shapeOK_of_staticsEq {e e' : Engine} (hst : StaticsEq e e') (hs : ShapeOK e) :
    ShapeOK e' := by
  constructor
  · intro n h
    have hq := hst []
    rw [h] at hq
    cases hr : e.tree.get? [] with
    | none => rw [hr] at hq; cases hq
    | some n0 =>
      rw [hr] at hq
      simp only [Option.map_some'] at hq
      have hdef : n.def = n0.def := congrArg Prod.fst (Option.some.inj hq)
      rw [hdef]
      exact hs.1 n0 hr
  · intro q hqne n h
    have hq := hst q
    rw [h] at hq
    cases hr : e.tree.get? q with
    | none => rw [hr] at hq; cases hq
    | some n0 =>
      rw [hr] at hq
      simp only [Option.map_some'] at hq
      have hdef : n.def = n0.def := congrArg Prod.fst (Option.some.inj hq)
      have hlen : n.children.length = n0.children.length :=
        congrArg Prod.snd (Option.some.inj hq)
      rw [hdef, hlen]
      exact hs.2 q hqne n0 hr

/-- The reachability invariant: claims C3 (single active), C10 (paired
statuses) and the shape facts claim C5 needs. -/
theorem reachable_inv {orgId : String} {items : List SItem} {now : Int} {e : Engine}
    (h : Reachable orgId items now e) : ActiveOnly e ∧ PairsOK e ∧ ShapeOK e := by
  induction h with
  | init =>
    exact ⟨activeOnly_initial orgId items now, pairsOK_initial orgId items now,
      shapeOK_initial orgId items now⟩
  | step fuel request targetId _hr hstep ih =>
    exact ⟨step_activeOnly ih.1 hstep, step_pairsOK ih.2.1 hstep,
      shapeOK_of_staticsEq (step_statics hstep) ih.2.2⟩

/-! ## Claim theorems -/

/-- C1: the claim says that once `endSession` is set (here by
`exitAll`), every later navigation request is rejected until a new
engine is built.  The code instead resets `endSession := false` at the
top of `overallSequencingProcess`, before the ended-session check, so
after `choice A; exitAll` (which leaves `endSession = true`) a further
`choice A` is accepted and delivers A again instead of being
rejected. -/
theorem claimC1_endSessionNotEnforced :
    engAB2.endSession = true ∧
    stepResult engAB2 "choice" (some "A") = some "A" ∧
    (stepEngine engAB2 "choice" (some "A")).endSession = false :=
  ⟨rfl, rfl, rfl⟩

/-- C2: the claim says flowing into a leaf A whose precondition rule is
`{condition: satisfied, operator: not, action: skip}` (objective not
satisfied) skips A — marking it complete without delivering it — and
delivers the next sibling B.  In the code `checkPreConditions` treats a
rule that evaluates to `true` as "deliverable" regardless of its
action, so flowing from Z into A (tree root → C → [Z, A, B]) delivers
A itself; the skip action then runs as an entry rule, marking A
complete while A is the delivered, active activity. -/
theorem claimC2_skipRuleDelivers :
    stepResult engSkip1 "continue" none = some "A" ∧
    ((stepEngine engSkip1 "continue" none).stAt [0, 1]).map
      (fun s => (s.activityIsActive, s.activityProgressStatus,
        s.activityCompletionStatus)) = some (true, true, true) :=
  ⟨rfl, rfl⟩

/-- C4: the claim says `start` on root → [A, B] delivers A.
`buildActivityTree` hard-codes `isLeaf := true` on the root, so
`flowSubprocess` treats the root as an undeliverable leaf (its empty
item has no `identifierref`), never descends to A, and the start
request fails with "No activity identified", marking the session
ended. -/
theorem claimC4_startFails :
    stepResult engAB "start" none = none ∧
    (stepEngine engAB "start" none).endSession = true ∧
    getCurrentActivity (stepEngine engAB "start" none) = none :=
  ⟨rfl, rfl, rfl⟩

/-- C7: the claim says that with default rollup, once all leaf
descendants of a parent are known+complete, the parent is complete
after Termination runs on the last such leaf.  On root → [A, B] with
exit rules that mark each leaf complete at its termination, after
`choice A; choice B; choice A` both leaves are known+complete and the
last termination (of B) ran rollup up to the root — yet the root's
completion is still unknown/incomplete, because `rollupActivityState`
skips any activity whose `isLeaf` flag is set and the root carries
that flag. -/
theorem claimC7_rootRollupSkipped :
    (engRoll3.stAt [0]).map
      (fun s => (s.activityProgressStatus, s.activityCompletionStatus)) =
        some (true, true) ∧
    (engRoll3.stAt [1]).map
      (fun s => (s.activityProgressStatus, s.activityCompletionStatus)) =
        some (true, true) ∧
    (engRoll3.stAt []).map
      (fun s => (s.activityProgressStatus, s.activityCompletionStatus)) =
        some (false, false) :=
  ⟨rfl, rfl, rfl⟩

/-- C6, counterexample: after `choice A; continue` on root → [A, B]
(B's control mode forbids choice) the failed continue left
`endSession = true`.  The rejected `choice B` then returns null as the
claim says, but the session state is not entirely unchanged: the
request processing unconditionally resets `endSession` to `false`, so
the post-state differs from the pre-state. -/
theorem claimC6_counterexample :
    engChoice2.endSession = true ∧
    stepResult engChoice2 "choice" (some "B") = none ∧
    (stepEngine engChoice2 "choice" (some "B")).endSession = false ∧
    stepEngine engChoice2 "choice" (some "B") ≠ engChoice2 := by
  refine ⟨rfl, rfl, rfl, ?_⟩
  intro hcontra
  have h1 : (stepEngine engChoice2 "choice" (some "B")).endSession =
      engChoice2.endSession := by rw [hcontra]
  rw [show (stepEngine engChoice2 "choice" (some "B")).endSession = false from rfl,
    show engChoice2.endSession = true from rfl] at h1
  cases h1

/-- C3: in every state reachable by processed navigation requests, at
most one activity in the tree has `activityIsActive = true`: any two
active paths coincide. -/
theorem claimC3_singleActive {orgId : String} {items : List SItem} {now : Int}
    {e : Engine} (h : Reachable orgId items now e) (p q : List Nat)
    (sp sq : ActivityStateInformation) (hp : e.stAt p = some sp)
    (hq : e.stAt q = some sq) (hap : sp.activityIsActive = true)
    (haq : sq.activityIsActive = true) : p = q := by
  have hao := (reachable_inv h).1
  have h1 := hao p sp hp hap
  have h2 := hao q sq hq haq
  exact Option.some.inj (h1.symm.trans h2)

/-- Witness for C3 at a concrete reachable state: after `choice A` on
the two-leaf tree, activity `[0]` is active, and the theorem applies. -/
theorem claimC3_singleActive_witness :
    (engAB1.stAt [0]).map ActivityStateInformation.activityIsActive = some true ∧
    ([0] : List Nat) = [0] :=
  ⟨rfl,
    claimC3_singleActive
      (Reachable.step 20 "choice" (some "A") Reachable.init
        (show overallSequencingProcess 20 (initialEngine "ORG" orgAB 0) "choice"
          (some "A") = some (engAB1, some [0]) from rfl))
      [0] [0] ((engAB1.stAt [0]).getD initializeActivityState)
      ((engAB1.stAt [0]).getD initializeActivityState) rfl rfl rfl rfl⟩

/-- C10: in every reachable state, `activityCompletionStatus = true`
implies `activityProgressStatus = true`, and for every stored
objective, `objectiveSatisfiedStatus = true` implies
`objectiveProgressStatus = true`. -/
theorem claimC10_pairedStatus {orgId : String} {items : List SItem} {now : Int}
    {e : Engine} (h : Reachable orgId items now e) (p : List Nat)
    (s : ActivityStateInformation) (hp : e.stAt p = some s) :
    (s.activityCompletionStatus = true → s.activityProgressStatus = true) ∧
    ∀ kv ∈ s.objectives,
      kv.2.objectiveSatisfiedStatus = true → kv.2.objectiveProgressStatus = true :=
  (reachable_inv h).2.1 p s hp

/-- Witness for C10 at a concrete reachable state (the root of the
fresh two-leaf engine). -/
theorem claimC10_pairedStatus_witness :
    (initializeActivityState.activityCompletionStatus = true →
      initializeActivityState.activityProgressStatus = true) ∧
    ∀ kv ∈ initializeActivityState.objectives,
      kv.2.objectiveSatisfiedStatus = true → kv.2.objectiveProgressStatus = true :=
  claimC10_pairedStatus
    (show Reachable "ORG" orgAB 0 (initialEngine "ORG" orgAB 0) from Reachable.init)
    [] initializeActivityState rfl

theorem deliverableN_facts {n : ATree} {now : Int}
    (h : isActivityDeliverableN n now = true) :
    n.def.isLeaf = true ∧ ∃ ref, n.def.identifierref = some ref ∧ ref ≠ "" := by
  unfold isActivityDeliverableN at h
  simp only [Bool.and_eq_true] at h
  obtain ⟨⟨⟨h1, h2⟩, _h3⟩, _h4⟩ := h
  refine ⟨h1, ?_⟩
  cases hr : n.def.identifierref with
  | none => rw [hr] at h2; cases h2
  | some ref =>
    rw [hr] at h2
    refine ⟨ref, rfl, ?_⟩
    simpa using h2

theorem delivery_some {e2 e' : Engine} {p0 p : List Nat}
    (h : deliveryRequestProcess e2 p0 = (e', some p)) :
    isActivityDeliverable e2 p0 = true ∧ p0 = p := by
  unfold deliveryRequestProcess at h
  split at h
  · rename_i hnd
    have := congrArg Prod.snd h
    cases this
  · rename_i hnd
    refine ⟨?_, ?_⟩
    · cases hd : isActivityDeliverable e2 p0 with
      | false => rw [hd] at hnd; exact absurd rfl hnd
      | true => rfl
    · have := congrArg Prod.snd h
      dsimp only at this
      exact Option.some.inj this

theorem statics_to_preSeq (e : Engine) :
    StaticsEq e (if ({ e with endSession := false } : Engine).currentActivity.isSome then
      terminationRequestProcess { e with endSession := false }
      else { e with endSession := false }) := by
  split
  · exact staticsEq_trans (staticsEq_of_treeEq rfl) (tameStep_termination _).1
  · exact staticsEq_of_treeEq rfl

/-- C5: every activity the overall sequencing process returns (any
request token; `processNavigationRequest` returns exactly its
identifier) is a genuine leaf — childless — with a non-empty
`identifierref`. -/
theorem claimC5_leafDelivery {orgId : String} {items : List SItem} {now : Int}
    {e : Engine} (h : Reachable orgId items now e) (fuel : Nat) (request : String)
    (targetId : Option String) (e' : Engine) (p : List Nat)
    (hstep : overallSequencingProcess fuel e request targetId = some (e', some p)) :
    ∃ n, e'.tree.get? p = some n ∧ n.def.isLeaf = true ∧ n.children.length = 0 ∧
      ∃ ref, n.def.identifierref = some ref ∧ ref ≠ "" := by
  have hshape := (reachable_inv h).2.2
  rcases overall_dissect hstep with ⟨_, hr, _⟩ | ⟨e2, out, _hnav, hseq, hrest⟩
  · cases hr
  · rcases hrest with ⟨p0, _hout, hpair⟩ | ⟨_hne, _he', hr⟩
    · have hdel := delivery_some hpair.symm
      obtain ⟨hdeliv, hp0p⟩ := hdel
      subst hp0p
      have hst2 : StaticsEq e e2 :=
        staticsEq_trans (statics_to_preSeq e)
          (staticsEq_of_treeEq (seqReq_tree_current hseq).1)
      have hshape2 : ShapeOK e2 := shapeOK_of_staticsEq hst2 hshape
      unfold isActivityDeliverable at hdeliv
      cases hg : e2.tree.get? p0 with
      | none => rw [hg] at hdeliv; cases hdeliv
      | some n2 =>
        rw [hg] at hdeliv
        obtain ⟨hleaf, ref, href, hrefne⟩ := deliverableN_facts hdeliv
        have hp0ne : p0 ≠ [] := by
          intro hnil
          subst hnil
          rw [hshape2.1 n2 hg] at href
          cases href
        have hlen : n2.children.length = 0 :=
          (hshape2.2 p0 hp0ne n2 hg).mp hleaf
        have he' : e' = (deliveryRequestProcess e2 p0).1 :=
          congrArg Prod.fst hpair
        have hstD : StaticsEq e2 e' := by
          rw [he']
          exact delivery_statics e2 p0
        have hq := hstD p0
        cases hg' : e'.tree.get? p0 with
        | none => rw [hg', hg] at hq; cases hq
        | some n' =>
          rw [hg', hg] at hq
          simp only [Option.map_some'] at hq
          have hdef : n'.def = n2.def := congrArg Prod.fst (Option.some.inj hq)
          have hlen' : n'.children.length = n2.children.length :=
            congrArg Prod.snd (Option.some.inj hq)
          refine ⟨n', rfl, ?_, ?_, ref, ?_, hrefne⟩
          · rw [hdef]; exact hleaf
          · rw [hlen']; exact hlen
          · rw [hdef]; exact href
    · cases hr

/-- Witness for C5: the `choice A` delivery on the two-leaf tree. -/
theorem claimC5_leafDelivery_witness :
    ∃ n, engAB1.tree.get? [0] = some n ∧ n.def.isLeaf = true ∧
      n.children.length = 0 ∧ ∃ ref, n.def.identifierref = some ref ∧ ref ≠ "" :=
  claimC5_leafDelivery Reachable.init 20 "choice" (some "A") engAB1 [0]
    (show overallSequencingProcess 20 (initialEngine "ORG" orgAB 0) "choice"
      (some "A") = some (engAB1, some [0]) from rfl)

theorem navChoiceRejected (e1 : Engine) (hend : e1.endSession = false) (t : String)
    (hne : t ≠ "") :
    (findPath t e1.tree = none →
      navigationRequestProcess e1 "choice" (some t) = some "Target activity not found") ∧
    (∀ tp, findPath t e1.tree = some tp → isChoiceValid e1 tp = false →
      navigationRequestProcess e1 "choice" (some t) =
        some "Choice not valid for target activity") := by
  unfold navigationRequestProcess
  rw [if_neg (by decide), hend, if_neg (by decide)]
  constructor
  · intro hnone
    show choiceNavCheck e1 (some t) = some "Target activity not found"
    unfold choiceNavCheck
    dsimp only
    rw [if_neg hne, hnone]
  · intro tp htp hcv
    show choiceNavCheck e1 (some t) = some "Choice not valid for target activity"
    unfold choiceNavCheck
    dsimp only
    rw [if_neg hne, htp]
    dsimp only
    rw [hcv]
    rfl

/-- C6 (amended): a `choice` request whose target id does not resolve,
or whose target's control mode sets `choice: false`, is rejected with
a named exception and returns null; the tree (all activity state) and
the current activity are left exactly as before — but the `endSession`
flag is not: it is unconditionally reset to `false` at the top of
`overallSequencingProcess`, so the session state as a whole is
unchanged only up to that flag. -/
theorem claimC6_choiceRejected (fuel : Nat) (e : Engine) (t : String) (hne : t ≠ "")
    (hbad : findPath t e.tree = none ∨
      ∃ tp, findPath t e.tree = some tp ∧ isChoiceValid e tp = false) :
    overallSequencingProcess fuel e "choice" (some t) =
      some ({ e with endSession := false }, none) ∧
    (navigationRequestProcess { e with endSession := false } "choice" (some t) =
        some "Target activity not found" ∨
      navigationRequestProcess { e with endSession := false } "choice" (some t) =
        some "Choice not valid for target activity") := by
  have hnav : (navigationRequestProcess { e with endSession := false } "choice" (some t) =
      some "Target activity not found") ∨
      (navigationRequestProcess { e with endSession := false } "choice" (some t) =
        some "Choice not valid for target activity") := by
    rcases hbad with hnone | ⟨tp, htp, hcv⟩
    · exact Or.inl ((navChoiceRejected { e with endSession := false } rfl t hne).1 hnone)
    · exact Or.inr ((navChoiceRejected { e with endSession := false } rfl t hne).2 tp htp hcv)
  refine ⟨?_, hnav⟩
  unfold overallSequencingProcess
  dsimp only
  rcases hnav with hx | hx
  · rw [hx]
  · rw [hx]

/-- Witness for the amended C6: on the `orgChoice` tree, `choice B`
(control mode `choice: false`) is rejected and only `endSession` is
touched. -/
theorem claimC6_choiceRejected_witness :
    overallSequencingProcess 20 engChoice2 "choice" (some "B") =
      some ({ engChoice2 with endSession := false }, none) ∧
    (navigationRequestProcess { engChoice2 with endSession := false } "choice"
        (some "B") = some "Target activity not found" ∨
      navigationRequestProcess { engChoice2 with endSession := false } "choice"
        (some "B") = some "Choice not valid for target activity") :=
  claimC6_choiceRejected 20 engChoice2 "B" (by decide)
    (Or.inr ⟨[1], rfl, rfl⟩)

/-- C8: with a current activity present, the available navigation
requests are `continue` iff flow is allowed, `previous` iff not
forward-only, `choice` iff choice is allowed, and the four termination
requests always. -/
theorem claimC8_availableRequests (e : Engine) (p : List Nat) (n : ATree)
    (hc : e.currentActivity = some p) (hn : e.tree.get? p = some n) :
    ("continue" ∈ getAvailableNavigationRequests e ↔
      isContinueAllowed n.def.sequencingDefinition = true) ∧
    ("previous" ∈ getAvailableNavigationRequests e ↔
      isPreviousAllowed n.def.sequencingDefinition = true) ∧
    ("choice" ∈ getAvailableNavigationRequests e ↔
      isChoiceValidSD n.def.sequencingDefinition = true) ∧
    "exit" ∈ getAvailableNavigationRequests e ∧
    "exitAll" ∈ getAvailableNavigationRequests e ∧
    "abandon" ∈ getAvailableNavigationRequests e ∧
    "abandonAll" ∈ getAvailableNavigationRequests e := by
  have hav : getAvailableNavigationRequests e =
      (if isContinueAllowed n.def.sequencingDefinition then ["continue"] else []) ++
      (if isPreviousAllowed n.def.sequencingDefinition then ["previous"] else []) ++
      (if isChoiceValidSD n.def.sequencingDefinition then ["choice"] else []) ++
      ["exit", "exitAll", "abandon", "abandonAll"] := by
    unfold getAvailableNavigationRequests
    rw [hc]
    dsimp only
    rw [hn]
  rw [hav]
  cases h1 : isContinueAllowed n.def.sequencingDefinition <;>
    cases h2 : isPreviousAllowed n.def.sequencingDefinition <;>
    cases h3 : isChoiceValidSD n.def.sequencingDefinition <;>
    simp

/-- Witness for C8 at `engAB1` (current activity A, no sequencing
definition: everything allowed). -/
theorem claimC8_availableRequests_witness :
    ("continue" ∈ getAvailableNavigationRequests engAB1 ↔
      isContinueAllowed nodeAB1.def.sequencingDefinition = true) ∧
    ("previous" ∈ getAvailableNavigationRequests engAB1 ↔
      isPreviousAllowed nodeAB1.def.sequencingDefinition = true) ∧
    ("choice" ∈ getAvailableNavigationRequests engAB1 ↔
      isChoiceValidSD nodeAB1.def.sequencingDefinition = true) ∧
    "exit" ∈ getAvailableNavigationRequests engAB1 ∧
    "exitAll" ∈ getAvailableNavigationRequests engAB1 ∧
    "abandon" ∈ getAvailableNavigationRequests engAB1 ∧
    "abandonAll" ∈ getAvailableNavigationRequests engAB1 :=
  claimC8_availableRequests engAB1 [0] nodeAB1 rfl rfl

theorem termination_active_false {E : Engine} {p : List Nat}
    (hc : E.currentActivity = some p) :
    ∀ s, (terminationRequestProcess E).stAt p = some s →
      s.activityIsActive = false := by
  intro s hs
  unfold terminationRequestProcess at hs
  rw [hc] at hs
  by_contra hne
  have ha : s.activityIsActive = true := by
    cases hb : s.activityIsActive
    · exact absurd hb hne
    · rfl
  obtain ⟨s1, hs1, ha1⟩ := (tameStep_rollupProcess p _).2.2.1 p s hs ha
  obtain ⟨s2, hs2, ha2⟩ := (tameStep_rulesCheck p .exit _).2.2.1 p s1 hs1 ha1
  rw [stAt_upd_self] at hs2
  cases hst : E.stAt p with
  | none => rw [hst] at hs2; cases hs2
  | some s0 =>
    rw [hst] at hs2
    have hfs := Option.some.inj hs2
    rw [← hfs] at ha2
    cases ha2

theorem exitFrame_body (E : Engine) (p : List Nat) (n : ATree)
    (hcE : E.currentActivity = some p) (hnE : E.tree.get? p = some n) :
    ∀ T, terminationRequestProcess E = T →
      ({ T with endSession := true } : Engine).currentActivity = some p ∧
      getCurrentActivity { T with endSession := true } = some n.def.identifier ∧
      (∀ s, ({ T with endSession := true } : Engine).stAt p = some s →
        s.activityIsActive = false) ∧
      getAvailableNavigationRequests { T with endSession := true } ≠ [] := by
  intro T hT
  have hTc : T.currentActivity = some p := by
    rw [← hT, (tameStep_termination E).2.1, hcE]
  have hTst := (tameStep_termination E).1
  rw [hT] at hTst
  have hq := hTst p
  rw [hnE] at hq
  have hactive : ∀ s, T.stAt p = some s → s.activityIsActive = false := by
    intro s hs
    apply termination_active_false hcE
    rw [hT]
    exact hs
  cases hg : T.tree.get? p with
  | none => rw [hg] at hq; cases hq
  | some nT =>
    rw [hg] at hq
    simp only [Option.map_some'] at hq
    have hdef : nT.def = n.def := congrArg Prod.fst (Option.some.inj hq)
    refine ⟨hTc, ?_, ?_, ?_⟩
    · unfold getCurrentActivity
      dsimp only
      rw [hTc]
      dsimp only [Option.bind]
      rw [hg]
      simp only [Option.map_some']
      rw [hdef]
    · intro s hs
      apply hactive
      rw [show ({ T with endSession := true } : Engine).stAt p = T.stAt p from rfl] at hs
      exact hs
    · unfold getAvailableNavigationRequests
      dsimp only
      rw [hTc]
      dsimp only
      rw [hg]
      intro hemp
      have hlen := congrArg List.length hemp
      simp [List.length_append] at hlen

/-- C9: after a successful `exitAll` or `abandonAll` with a current
activity, the current-activity reference is not cleared:
`getCurrentActivity` still returns its identifier; its active flag is
cleared, `endSession` is set, and `getAvailableNavigationRequests`
stays non-empty. -/
theorem claimC9_exitAllFrame (fuel : Nat) (e : Engine) (request : String)
    (p : List Nat) (n : ATree)
    (hreq : request = "exitAll" ∨ request = "abandonAll")
    (hc : e.currentActivity = some p) (hn : e.tree.get? p = some n) :
    ∃ e', overallSequencingProcess fuel e request none = some (e', none) ∧
      e'.currentActivity = some p ∧
      getCurrentActivity e' = some n.def.identifier ∧
      e'.endSession = true ∧
      (∀ s, e'.stAt p = some s → s.activityIsActive = false) ∧
      getAvailableNavigationRequests e' ≠ [] := by
  have hbody := exitFrame_body
    { tree := e.tree, currentActivity := some p, endSession := false, now := e.now }
    p n rfl hn (terminationRequestProcess
      { tree := e.tree, currentActivity := some p, endSession := false, now := e.now })
    rfl
  rcases hreq with rfl | rfl
  · refine ⟨_, ?_, hbody.1, hbody.2.1, rfl, hbody.2.2.1, hbody.2.2.2⟩
    unfold overallSequencingProcess
    dsimp only
    rw [hc]
    rfl
  · refine ⟨_, ?_, hbody.1, hbody.2.1, rfl, hbody.2.2.1, hbody.2.2.2⟩
    unfold overallSequencingProcess
    dsimp only
    rw [hc]
    rfl

/-- Witness for C9: `exitAll` right after `choice A` on the two-leaf
tree. -/
theorem claimC9_exitAllFrame_witness :
    ∃ e', overallSequencingProcess 20 engAB1 "exitAll" none = some (e', none) ∧
      e'.currentActivity = some [0] ∧
      getCurrentActivity e' = some nodeAB1.def.identifier ∧
      e'.endSession = true ∧
      (∀ s, e'.stAt [0] = some s → s.activityIsActive = false) ∧
      getAvailableNavigationRequests e' ≠ [] :=
  claimC9_exitAllFrame 20 engAB1 "exitAll" [0] nodeAB1 (Or.inl rfl) rfl rfl
